import Mathlib

/-!
# Extensions manager (npm back end): model and verification

A shallow embedding of `src/src/npm/index.js` (class `NPM`), `src/src/utils.js`,
`src/src/errorCodes.js` and `src/etc/config.js`.

* Asynchronous methods are modelled as sequential functions: every `await` is a plain call.
* The outside world (file system, child processes, registry) is an abstract state `W` that is
  observed and changed only through the collaborators gathered in `Sys`.
* `this.extensions` is an insertion-ordered dictionary from names to records. Extension
  names are assumed not to be property names of `Object.prototype` (such as `constructor`),
  for which a plain JavaScript object returns an inherited value instead of `undefined`.
* `fs.stat` may throw at once instead of calling back, which makes the helper `exists`
  reject.
* `src/ExtensionsManager.js` is the abstract base class: its methods only throw and are all
  overridden here.
* JSON documents are typed: a document is `null` or an object of which the manager reads the
  properties `keywords` (a list of strings), `version` (a string) and `objects`.
* Calls to `this.debug` only log and are left out.
-/

set_option autoImplicit false

/-! ## Error codes (`src/src/errorCodes.js`) -/

namespace COMMON

def NOT_FOUND : String := "NOT_FOUND"
def TIMEOUT : String := "TIMEOUT"
def VALIDATION : String := "VALIDATION"

end COMMON

namespace EXTENSIONS

def WRONG_TYPE : String := "WRONG_TYPE"
def UNSUPPORTED_PACKAGE : String := "UNSUPPORTED_PACKAGE"
def INSTALL_ERROR : String := "INSTALL_ERROR"
def UNINSTALL_ERROR : String := "UNINSTALL_ERROR"
def UPDATE_ERROR : String := "UPDATE_ERROR"
def CHECK_UPDATES_ERROR : String := "CHECK_UPDATES_ERROR"

end EXTENSIONS

/-- A thrown value: either an `X` error carrying a code (its `fields` are always empty),
or any other JavaScript error (a `TypeError`, a file-system error, a rejected body read). -/
inductive Err where
  | X (code : String)
  | other (what : String)
deriving DecidableEq, Repr

/-- The result of a call: a returned value or a thrown error. -/
inductive Res (α : Type) where
  | ok (value : α)
  | throw (err : Err)
deriving DecidableEq, Repr

/-! ## JavaScript and Node built-ins used by the manager -/

/-- String truthiness: only the empty string is falsy. -/
def truthy (s : String) : Bool := s != ""

/-- The ECMAScript `Array.prototype.join` loop on an array of strings: the separator is
appended before every element but the first. -/
def arrayJoinFrom (sep : String) : String → List String → String
  | r, [] => r
  | r, x :: xs => arrayJoinFrom sep (r ++ sep ++ x) xs

/-- The method `Array.prototype.join`. -/
def arrayJoin (xs : List String) (sep : String) : String :=
  match xs with
  | [] => ""
  | x :: rest => arrayJoinFrom sep x rest

/-- One hexadecimal digit, upper case. -/
def hexDigit (n : Nat) : Char :=
  if n < 10 then Char.ofNat (48 + n) else Char.ofNat (55 + n)

/-- The characters `encodeURIComponent` leaves alone: letters, digits and `-_.!~*'()`. -/
def uriUnreserved (c : Char) : Bool :=
  c.isAlphanum || [45, 95, 46, 33, 126, 42, 39, 40, 41].contains c.toNat

/-- The built-in `encodeURIComponent`: every other character becomes the `%XX` escapes of
its UTF-8 bytes. -/
def encodeURIComponent (s : String) : String :=
  String.mk (s.data.flatMap fun c =>
    if uriUnreserved c then [c]
    else (String.utf8EncodeChar c).flatMap fun b =>
      [Char.ofNat 37, hexDigit (b.toNat / 16), hexDigit (b.toNat % 16)])

/-- Split a path at every `/`. -/
def splitSlash : List Char → List (List Char)
  | [] => [[]]
  | c :: cs =>
    if c = Char.ofNat 47 then [] :: splitSlash cs
    else match splitSlash cs with
      | [] => [[c]]
      | seg :: segs => (c :: seg) :: segs

/-- Node's `normalizeString` on the segments of a path: empty segments and `.` vanish,
`..` removes the segment before it (or is kept, for a relative path that climbs above its
start). The accumulator holds the kept segments in reverse. -/
def normalizeSegments (allowAboveRoot : Bool) : List (List Char) → List (List Char) → List (List Char)
  | acc, [] => acc.reverse
  | acc, seg :: segs =>
    if seg = [] ∨ seg = [Char.ofNat 46] then normalizeSegments allowAboveRoot acc segs
    else if seg = [Char.ofNat 46, Char.ofNat 46] then
      match acc with
      | [] => normalizeSegments allowAboveRoot (if allowAboveRoot then [seg] else []) segs
      | last :: before =>
        if last = [Char.ofNat 46, Char.ofNat 46] then
          normalizeSegments allowAboveRoot (if allowAboveRoot then seg :: acc else acc) segs
        else normalizeSegments allowAboveRoot before segs
    else normalizeSegments allowAboveRoot (seg :: acc) segs

/-- Node's `path.posix.normalize`. -/
def pathNormalize (path : List Char) : List Char :=
  match path with
  | [] => [Char.ofNat 46]
  | first :: _ =>
    let isAbsolute : Bool := first = Char.ofNat 47
    let trailingSeparator : Bool := path.getLast? = some (Char.ofNat 47)
    let body := List.intercalate [Char.ofNat 47]
      (normalizeSegments (!isAbsolute) [] (splitSlash path))
    if body = [] then
      if isAbsolute then [Char.ofNat 47]
      else if trailingSeparator then [Char.ofNat 46, Char.ofNat 47] else [Char.ofNat 46]
    else
      let body := if trailingSeparator then body ++ [Char.ofNat 47] else body
      if isAbsolute then Char.ofNat 47 :: body else body

/-- Node's `path.join` (POSIX): the non-empty arguments joined by `/`, then normalised. -/
def pathJoin (parts : List String) : String :=
  String.mk (pathNormalize
    (List.intercalate [Char.ofNat 47] ((parts.filter fun p => p != "").map String.data)))

/-- The segment `..`. -/
def dotdot : List Char := [Char.ofNat 46, Char.ofNat 46]

/-- A stack of kept segments (last kept first) as `normalizeSegments` builds it: no segment
is empty, `.` or contains a `/`, and a `..` sits only below nothing but `..`, and only when
climbing is allowed. -/
def NormalStack (allowAboveRoot : Bool) : List (List Char) → Prop
  | [] => True
  | seg :: before =>
    seg ≠ [] ∧ seg ≠ [Char.ofNat 46] ∧ Char.ofNat 47 ∉ seg ∧
      (seg = dotdot → allowAboveRoot = true ∧ ∀ s ∈ before, s = dotdot) ∧
      NormalStack allowAboveRoot before

/-! ## Data model -/

/-- A JSON object, as far as the manager reads it: a registry entry, a `package.json`
manifest or a search result. An absent property is `none`; the hits listed under `objects`
are never inspected and are kept as text. -/
structure JsonObject where
  keywords : Option (List String)
  version : Option String
  objects : Option (List String)
deriving DecidableEq, Repr

/-- A parsed JSON document: `null` or an object. -/
inductive Json where
  | null
  | object (o : JsonObject)
deriving DecidableEq, Repr

/-- An entry of `this.extensions`. -/
structure ExtensionRecord where
  installPath : String
  type : String
  config : Json
deriving DecidableEq, Repr

/-- The dictionary `this.extensions`: keys in insertion order. -/
abbrev Extensions := List (String × ExtensionRecord)

namespace Extensions

/-- Property read `this.extensions[name]` (`none` is `undefined`). -/
def get : Extensions → String → Option ExtensionRecord
  | [], _ => none
  | (key, record) :: rest, name => if key = name then some record else get rest name

/-- Assignment `this.extensions[name] = record`: an existing key keeps its place. -/
def set : Extensions → String → ExtensionRecord → Extensions
  | [], name, record => [(name, record)]
  | (key, old) :: rest, name, record =>
    if key = name then (key, record) :: rest else (key, old) :: set rest name record

/-- Statement `delete this.extensions[name]`. -/
def delete : Extensions → String → Extensions
  | [], _ => []
  | (key, record) :: rest, name =>
    if key = name then delete rest name else (key, record) :: delete rest name

end Extensions

/-- A directory entry yielded by iterating an opened directory. -/
structure Dirent where
  name : String
  isDirectory : Bool
deriving DecidableEq, Repr

/-- A resolved `fetch`: the status and the outcome of `response.json()`
(`none` when the body cannot be read as JSON). -/
structure Response where
  status : Nat
  json : Option Json
deriving DecidableEq, Repr

/-- Options handed to `exec`. -/
structure ExecOptions where
  cwd : String
  timeout : Nat
deriving DecidableEq, Repr

/-- What a call of `fs.stat` does: it throws at once on a path it refuses (Node does so for
a path with a NUL byte), or it calls back, with no error or with an error of some code. -/
inductive StatResult where
  | throws
  | ok
  | error (code : String)
deriving DecidableEq, Repr

/-- The collaborators of the manager over a world state `W`.

* `stat`: `fs.stat`;
* `readfile`: `fs.promises.readFile(path, 'utf-8')`, `none` when it rejects;
* `opendir`: `fs.promises.opendir` followed by the iteration, `none` when it rejects;
* `exec`: the promisified `child_process.exec`; the flag tells whether it resolved (a failed
  or timed-out process rejects), the state is the world it leaves behind;
* `fetch`: the global `fetch`, `none` when it rejects;
* `jsonParse`: `JSON.parse`, `none` when it throws;
* `semverLt`: `semver/functions/lt`, `none` when it throws;
* `statusOK`: the constant `STATUS_CODES.OK` of `src/src/statusCodes.js`, a module that is
  not among the sources and is therefore kept as a parameter. -/
structure Sys (W : Type) where
  stat : W → String → StatResult
  readfile : W → String → Option String
  opendir : W → String → Option (List Dirent)
  exec : W → String → ExecOptions → Bool × W
  fetch : W → String → Option Response
  jsonParse : String → Option Json
  semverLt : Option String → String → Option Bool
  statusOK : Nat

/-- The helper `exists` of `src/src/utils.js`: the promise resolves to whether `fs.stat`
called back without an error or with one other than `ENOENT`; when `fs.stat` throws inside
the executor the promise rejects with that error. -/
def pathExists {W : Type} (sys : Sys W) (w : W) (path : String) : Res Bool :=
  match sys.stat w path with
  | .throws => .throw (.other "fs.stat")
  | .ok => .ok true
  | .error code => .ok (code != "ENOENT")

/-- The registry and command-line settings of `src/etc/config.js`. -/
structure NpmConfig where
  searchURL : String
  searchByPackageNameURL : String
  packageURL : String
  cliCommandTimeout : Nat
deriving DecidableEq, Repr

/-- The exported object `npm` of `src/etc/config.js`. -/
def npm : NpmConfig where
  searchURL := "https://registry.npmjs.org/-/v1/search"
  searchByPackageNameURL := "https://registry.npmjs.org/"
  packageURL := "https://www.npmjs.com/package"
  cliCommandTimeout := 120000

/-- The fields of an `NPM` instance (the debugger apart). -/
structure NPM where
  extensionTypes : List String
  installPath : String
  defaultSchemePath : String
  defaultIconPath : String
  searchURL : String
  searchByPackageNameURL : String
  packageURL : String
  cliCommandTimeout : Nat
  extensions : Extensions
  language : String
deriving DecidableEq, Repr

/-- The state after a call that may change `this.extensions` and the world: what the call
returned or threw, the instance and the world it leaves. -/
structure Outcome (W : Type) (α : Type) where
  result : Res α
  self : NPM
  world : W

/-- The second argument of `searchExtensions`. -/
structure SearchOptions where
  keywords : Option (List String)
deriving DecidableEq, Repr

namespace NPM

/-- The constructor, with its defaults. -/
def new (extensionTypes : List String := []) (installPath : String := ".")
    (defaultSchemePath : String := "/etc/scheme.json")
    (defaultIconPath : String := "/etc/icon.svg") : NPM where
  extensionTypes := extensionTypes
  installPath := installPath
  defaultSchemePath := defaultSchemePath
  defaultIconPath := defaultIconPath
  searchURL := npm.searchURL
  searchByPackageNameURL := npm.searchByPackageNameURL
  packageURL := npm.packageURL
  cliCommandTimeout := npm.cliCommandTimeout
  extensions := []
  language := "JS"

variable {W : Type}

/-- Method `searchExtensions`, lines 56-74. The qualifier is empty unless `keywords` is a
non-empty array; every failure inside the `try` block, also reading `objects` of `null`,
becomes `TIMEOUT`. -/
def searchExtensions (self : NPM) (sys : Sys W) (w : W) (text : String)
    (options : SearchOptions) : Res (Option (List String)) :=
  let keywordSearchQualifier :=
    match options.keywords with
    | some (k :: ks) => "+keywords:" ++ arrayJoin (k :: ks) "+"
    | _ => ""
  match sys.fetch w (self.searchURL ++ "?text=" ++ text ++ keywordSearchQualifier) with
  | none => .throw (.X COMMON.TIMEOUT)
  | some response =>
    match response.json with
    | none => .throw (.X COMMON.TIMEOUT)
    | some .null => .throw (.X COMMON.TIMEOUT)
    | some (.object searchResults) => .ok searchResults.objects

/-- Method `prepareExtensionName`. -/
def prepareExtensionName (extensionName : String) : String :=
  encodeURIComponent extensionName

/-- Method `getExtensionInfoURL`. -/
def getExtensionInfoURL (self : NPM) (extensionName : String) : String :=
  self.packageURL ++ "/" ++ prepareExtensionName extensionName

/-- Method `searchExtensionByName`, lines 110-133. Only the `fetch` itself is inside the
`try` block; a body that cannot be read rejects with the underlying error. -/
def searchExtensionByName (self : NPM) (sys : Sys W) (w : W) (extensionName : String)
    (version : String := "latest") : Res Json :=
  match sys.fetch w
      (self.searchByPackageNameURL ++ prepareExtensionName extensionName ++ "/" ++ version) with
  | none => .throw (.X COMMON.TIMEOUT)
  | some response =>
    if response.status ≠ sys.statusOK then .ok .null
    else
      match response.json with
      | none => .throw (.other "response.json")
      | some extension => .ok extension

/-- Method `getExtensionTypeByExtensionName`, lines 76-101. -/
def getExtensionTypeByExtensionName (self : NPM) (sys : Sys W) (w : W)
    (extensionName : String) : Res String :=
  match (self.extensions.get extensionName).filter (fun record => truthy record.type) with
  | some record => .ok record.type
  | none =>
    match searchExtensionByName self sys w extensionName with
    | .throw err => .throw err
    | .ok .null => .throw (.X EXTENSIONS.WRONG_TYPE)
    | .ok (.object extension) =>
      match extension.keywords with
      | none => .throw (.X EXTENSIONS.WRONG_TYPE)
      | some [] => .throw (.X EXTENSIONS.WRONG_TYPE)
      | some keywords =>
        match keywords.find? (fun keyword => self.extensionTypes.contains keyword) with
        | none => .throw (.X EXTENSIONS.WRONG_TYPE)
        | some extensionType =>
          if truthy extensionType then .ok extensionType
          else .throw (.X EXTENSIONS.WRONG_TYPE)

/-- Method `getExtensionPath`, lines 360-373. -/
def getExtensionPath (self : NPM) (sys : Sys W) (w : W) (extensionName : String)
    (type : String := "") : Res String :=
  match (self.extensions.get extensionName).filter (fun record => truthy record.installPath) with
  | some record => .ok (pathJoin [record.installPath, "node_modules", extensionName])
  | none =>
    if truthy type then .ok (pathJoin [self.installPath, type, "node_modules", extensionName])
    else
      match getExtensionTypeByExtensionName self sys w extensionName with
      | .throw err => .throw err
      | .ok extensionType =>
        .ok (pathJoin [self.installPath, extensionType, "node_modules", extensionName])

/-- Method `isExtensionInstalled`, lines 103-108. -/
def isExtensionInstalled (self : NPM) (sys : Sys W) (w : W) (extensionName type : String) :
    Res Bool :=
  match getExtensionPath self sys w extensionName type with
  | .throw err => .throw err
  | .ok extensionPath => pathExists sys w extensionPath

/-- Method `getExtensionInstallPath`, lines 135-153. -/
def getExtensionInstallPath (self : NPM) (sys : Sys W) (w : W)
    (extensionName extensionType : String) : Res String :=
  match isExtensionInstalled self sys w extensionName extensionType with
  | .throw err => .throw err
  | .ok true =>
    match (self.extensions.get extensionName).filter
        (fun extension => truthy extension.installPath) with
    | some extension => .ok extension.installPath
    | none => .ok (pathJoin [self.installPath, extensionType])
  | .ok false => .throw (.X COMMON.NOT_FOUND)

/-- Method `getExtensionConfigObj`, lines 249-263. -/
def getExtensionConfigObj (self : NPM) (sys : Sys W) (w : W) (extensionName : String)
    (extensionType : String := "") : Res Json :=
  match getExtensionPath self sys w extensionName extensionType with
  | .throw err => .throw err
  | .ok packageDirPath =>
    match pathExists sys w packageDirPath with
    | .throw err => .throw err
    | .ok true =>
      match sys.readfile w (pathJoin [packageDirPath, "package.json"]) with
      | none => .throw (.other "readfile")
      | some configFile =>
        match sys.jsonParse configFile with
        | none => .throw (.other "JSON.parse")
        | some config => .ok config
    | .ok false => .throw (.X COMMON.NOT_FOUND)

/-- Method `installExtension`, lines 155-175. The record is built (manifest included)
before it is assigned, so a failing manifest read leaves `this.extensions` alone. -/
def installExtension (self : NPM) (sys : Sys W) (w : W) (extensionName extensionType : String) :
    Outcome W Unit :=
  let extensionInstallPath := pathJoin [self.installPath, extensionType]
  match sys.exec w ("npm i --no-package-lock " ++ extensionName)
      { cwd := extensionInstallPath, timeout := self.cliCommandTimeout } with
  | (false, w1) => ⟨.throw (.X EXTENSIONS.INSTALL_ERROR), self, w1⟩
  | (true, w1) =>
    match getExtensionConfigObj self sys w1 extensionName extensionType with
    | .throw _ => ⟨.throw (.X EXTENSIONS.INSTALL_ERROR), self, w1⟩
    | .ok config =>
      let record : ExtensionRecord :=
        { installPath := extensionInstallPath, type := extensionType, config := config }
      ⟨.ok (), { self with extensions := self.extensions.set extensionName record }, w1⟩

/-- Method `updateExtension`, lines 177-195. The assignment
`this.extensions[extensionName].config = ...` throws a `TypeError` inside the `try` block
when the name has no record. -/
def updateExtension (self : NPM) (sys : Sys W) (w : W) (extensionName extensionType : String) :
    Outcome W Unit :=
  match getExtensionInstallPath self sys w extensionName extensionType with
  | .throw err => ⟨.throw err, self, w⟩
  | .ok extensionInstallPath =>
    match sys.exec w ("npm i --no-package-lock " ++ extensionName ++ "@latest")
        { cwd := extensionInstallPath, timeout := self.cliCommandTimeout } with
    | (false, w1) => ⟨.throw (.X EXTENSIONS.UPDATE_ERROR), self, w1⟩
    | (true, w1) =>
      match getExtensionConfigObj self sys w1 extensionName extensionType with
      | .throw _ => ⟨.throw (.X EXTENSIONS.UPDATE_ERROR), self, w1⟩
      | .ok config =>
        match self.extensions.get extensionName with
        | none => ⟨.throw (.X EXTENSIONS.UPDATE_ERROR), self, w1⟩
        | some record =>
          ⟨.ok (), { self with extensions :=
              self.extensions.set extensionName { record with config := config } }, w1⟩

/-- Method `uninstallExtension`, lines 197-214. -/
def uninstallExtension (self : NPM) (sys : Sys W) (w : W)
    (extensionName extensionType : String) : Outcome W Unit :=
  match getExtensionInstallPath self sys w extensionName extensionType with
  | .throw err => ⟨.throw err, self, w⟩
  | .ok extensionInstallPath =>
    match sys.exec w ("npm uninstall --no-package-lock " ++ extensionName)
        { cwd := extensionInstallPath, timeout := self.cliCommandTimeout } with
    | (false, w1) => ⟨.throw (.X EXTENSIONS.UNINSTALL_ERROR), self, w1⟩
    | (true, w1) =>
      ⟨.ok (), { self with extensions := self.extensions.delete extensionName }, w1⟩

/-- The `try` block of `hasAvailableUpdate`, lines 218-228. Reading `version` of a `null`
manifest throws a `TypeError`. -/
def hasAvailableUpdateTry (self : NPM) (sys : Sys W) (w : W)
    (extensionName extensionType : String) : Res Bool :=
  match getExtensionConfigObj self sys w extensionName extensionType with
  | .throw err => .throw err
  | .ok packageConfigObj =>
    match searchExtensionByName self sys w extensionName with
    | .throw err => .throw err
    | .ok .null => .throw (.X EXTENSIONS.UNSUPPORTED_PACKAGE)
    | .ok (.object npmPackageInfo) =>
      match npmPackageInfo.version.filter truthy with
      | none => .throw (.X EXTENSIONS.UNSUPPORTED_PACKAGE)
      | some latestVersion =>
        match packageConfigObj with
        | .null => .throw (.other "TypeError")
        | .object manifest =>
          match sys.semverLt manifest.version latestVersion with
          | none => .throw (.other "semver")
          | some lt => .ok lt

/-- Method `hasAvailableUpdate`, lines 216-236: whatever the `try` block throws, the `catch`
clause throws `CHECK_UPDATES_ERROR`. -/
def hasAvailableUpdate (self : NPM) (sys : Sys W) (w : W)
    (extensionName extensionType : String) : Res Bool :=
  match hasAvailableUpdateTry self sys w extensionName extensionType with
  | .ok lt => .ok lt
  | .throw _ => .throw (.X EXTENSIONS.CHECK_UPDATES_ERROR)

/-- Lines 315-330 of `getInstalledExtensions`: push the names found among the entries of
one `node_modules` directory onto `packageNames`; a scope directory that cannot be opened
throws. -/
def collectPackageNames (sys : Sys W) (w : W) (dirPath : String) :
    List Dirent → List String → Res (List String)
  | [], packageNames => .ok packageNames
  | dirent :: dir, packageNames =>
    if dirent.isDirectory then
      if dirent.name.data.head? = some (Char.ofNat 64) then
        match sys.opendir w (pathJoin [dirPath, dirent.name]) with
        | none => .throw (.other "opendir")
        | some scopedDir =>
          collectPackageNames sys w dirPath dir
            (packageNames ++ scopedDir.map fun scopedDirent =>
              dirent.name ++ "/" ++ scopedDirent.name)
      else collectPackageNames sys w dirPath dir (packageNames ++ [dirent.name])
    else collectPackageNames sys w dirPath dir packageNames

/-- Expression `packageConfigObj.keywords.includes(type)`, line 336: a `TypeError` (`none`)
on a `null` manifest or one without keywords. -/
def keywordsIncludes (packageConfigObj : Json) (type : String) : Option Bool :=
  match packageConfigObj with
  | .null => none
  | .object manifest =>
    match manifest.keywords with
    | none => none
    | some keywords => some (keywords.contains type)

/-- Lines 332-351 of `getInstalledExtensions`: every name of `packageNames` is read (with no
type argument) and recorded under `type` when its manifest lists `type`; any error is caught
per name. -/
def classifyPackages (sys : Sys W) (w : W) (type : String) :
    List String → NPM → List Json → NPM × List Json
  | [], self, packageConfigObjs => (self, packageConfigObjs)
  | packageName :: rest, self, packageConfigObjs =>
    match getExtensionConfigObj self sys w packageName with
    | .throw _ => classifyPackages sys w type rest self packageConfigObjs
    | .ok packageConfigObj =>
      match keywordsIncludes packageConfigObj type with
      | some true =>
        let record : ExtensionRecord :=
          { installPath := pathJoin [self.installPath, type], type := type,
            config := packageConfigObj }
        classifyPackages sys w type rest
          { self with extensions := self.extensions.set packageName record }
          (packageConfigObjs ++ [packageConfigObj])
      | _ => classifyPackages sys w type rest self packageConfigObjs

/-- The loop over `this.extensionTypes`, lines 307-352. `packageNames` and
`packageConfigObjs` are declared before the loop and live across its rounds; an error outside
the per-name `try` ends the scan with what has been gathered. -/
def scanTypes (sys : Sys W) (w : W) :
    List String → NPM → List String → List Json → NPM × List Json
  | [], self, _, packageConfigObjs => (self, packageConfigObjs)
  | type :: types, self, packageNames, packageConfigObjs =>
    let dirPath := pathJoin [self.installPath, type, "node_modules"]
    match pathExists sys w dirPath with
    | .throw _ => (self, packageConfigObjs)
    | .ok false => scanTypes sys w types self packageNames packageConfigObjs
    | .ok true =>
      match sys.opendir w dirPath with
      | none => (self, packageConfigObjs)
      | some dir =>
        match collectPackageNames sys w dirPath dir packageNames with
        | .throw _ => (self, packageConfigObjs)
        | .ok packageNames =>
          match classifyPackages sys w type packageNames self packageConfigObjs with
          | (self, packageConfigObjs) => scanTypes sys w types self packageNames packageConfigObjs

/-- Method `getInstalledExtensions`, lines 302-358. It never throws. -/
def getInstalledExtensions (self : NPM) (sys : Sys W) (w : W) : Outcome W (List Json) :=
  match scanTypes sys w self.extensionTypes self [] [] with
  | (self, packageConfigObjs) => ⟨.ok packageConfigObjs, self, w⟩

end NPM

/-! ## Worlds used to run the model on concrete inputs -/

/-- A small concrete world: the directories with their entries, the files with their text,
and the registry's answers by URL. -/
structure Disk where
  dirs : List (String × List Dirent)
  files : List (String × String)
  registry : List (String × Response)
deriving DecidableEq, Repr

/-- The manifest text of a package tagged `util` only. -/
def utilManifestText : String := "\x7b\"version\":\"1.0.0\",\"keywords\":[\"util\"]\x7d"

/-- The manifest text of a package tagged `driver` and `widget`. -/
def bothManifestText : String :=
  "\x7b\"version\":\"1.0.0\",\"keywords\":[\"driver\",\"widget\"]\x7d"

/-- The document `utilManifestText` parses to. -/
def utilManifest : Json := .object ⟨some ["util"], some "1.0.0", none⟩

/-- The document `bothManifestText` parses to. -/
def bothManifest : Json := .object ⟨some ["driver", "widget"], some "1.0.0", none⟩

/-- Collaborators over a `Disk`: `fs.stat` refuses a path with a NUL byte and finds the
paths that are listed, `exec` hands over the given next world, `JSON.parse` knows the two manifest texts above and version comparison is left
undefined. -/
def diskSys (execOk : Bool) (after : Disk) : Sys Disk where
  stat := fun w path =>
    if path.data.contains (Char.ofNat 0) then .throws
    else if (w.dirs.lookup path).isSome || (w.files.lookup path).isSome then .ok
    else .error "ENOENT"
  readfile := fun w path => w.files.lookup path
  opendir := fun w path => w.dirs.lookup path
  exec := fun _ _ _ => (execOk, after)
  fetch := fun w url => w.registry.lookup url
  jsonParse := fun text =>
    if text = utilManifestText then some utilManifest
    else if text = bothManifestText then some bothManifest
    else none
  semverLt := fun _ _ => none
  statusOK := 200

/-- An instance with types `driver` and `widget` installing under `/ext`. -/
def demo : NPM := NPM.new ["driver", "widget"] "/ext"

/-- The instance `demo` with a record for `pkg` under the type `driver`. -/
def cachedDemo : NPM :=
  { demo with extensions := [("pkg", ⟨"/ext/driver", "driver", utilManifest⟩)] }

/-- A world in which the install roots of both types exist (as after `init`) and nothing is
installed. -/
def readyDisk : Disk := ⟨[("/ext/driver", []), ("/ext/widget", [])], [], []⟩

/-- A name with a NUL byte in it. -/
def nulName : String := String.mk [Char.ofNat 97, Char.ofNat 0, Char.ofNat 98]

/-- A world with nothing on disk and a registry that answers nothing. -/
def emptyDisk : Disk := ⟨[], [], []⟩

/-- A world in which `pkg` is installed under `/ext/driver` with the given manifest text and
the registry gives the given answer for it. -/
def installedDisk (manifestText : String) (answer : Response) : Disk where
  dirs := [("/ext/driver/node_modules", [⟨"pkg", true⟩]), ("/ext/widget/node_modules", []),
    ("/ext/driver/node_modules/pkg", [])]
  files := [("/ext/driver/node_modules/pkg/package.json", manifestText)]
  registry := [("https://registry.npmjs.org/pkg/latest", answer)]

/-- A world installed as above, with a `util` manifest and a registry entry that has no
`version`. -/
def unversionedDisk : Disk :=
  installedDisk utilManifestText ⟨200, some (.object ⟨some ["util"], none, none⟩)⟩

/-- A world installed as above, with a manifest and a registry entry tagged `driver` and
`widget`. -/
def bothDisk : Disk := installedDisk bothManifestText ⟨200, some bothManifest⟩

/-- A world in which `pkg` is on disk twice: under `/ext/driver` with the manifest tagged
`driver` and `widget`, and directly under `/ext` with the manifest tagged `util`; the
registry lists it with the keywords `driver` and `widget`. -/
def twiceDisk : Disk where
  dirs := [("/ext/node_modules", [⟨"pkg", true⟩]), ("/ext/node_modules/pkg", []),
    ("/ext/driver/node_modules", [⟨"pkg", true⟩]), ("/ext/driver/node_modules/pkg", [])]
  files := [("/ext/node_modules/pkg/package.json", utilManifestText),
    ("/ext/driver/node_modules/pkg/package.json", bothManifestText)]
  registry := [("https://registry.npmjs.org/pkg/latest", ⟨200, some bothManifest⟩)]

/-- A world whose registry knows nothing of `ghost`. -/
def ghostDisk : Disk := ⟨[], [], [("https://registry.npmjs.org/ghost/latest", ⟨404, none⟩)]⟩

/-- An instance whose only configured type is the empty string. -/
def emptyTag : NPM := NPM.new [""] "/ext"

/-- A world whose registry lists `pkg` with the empty string as its only keyword. -/
def emptyTagDisk : Disk :=
  ⟨[], [], [("https://registry.npmjs.org/pkg/latest", ⟨200, some (.object ⟨some [""], none, none⟩)⟩)]⟩

/-- A world whose registry answers the query of text `foo` and keywords `bar`, `baz`, and
no other. -/
def searchDisk : Disk :=
  ⟨[], [], [("https://registry.npmjs.org/-/v1/search?text=foo+keywords:bar+baz",
    ⟨200, some (.object ⟨none, none, some ["foo-bar-baz"]⟩)⟩)]⟩

/-! ## Sequences of calls -/

/-- A call of one of the methods that write `this.extensions`. -/
inductive Call where
  | installExtension (extensionName extensionType : String)
  | updateExtension (extensionName extensionType : String)
  | uninstallExtension (extensionName extensionType : String)
  | getInstalledExtensions
deriving DecidableEq, Repr

/-- The instance after one call started in world `w`. -/
def Call.run {W : Type} (sys : Sys W) (self : NPM) (w : W) : Call → NPM
  | .installExtension name type => (NPM.installExtension self sys w name type).self
  | .updateExtension name type => (NPM.updateExtension self sys w name type).self
  | .uninstallExtension name type => (NPM.uninstallExtension self sys w name type).self
  | .getInstalledExtensions => (NPM.getInstalledExtensions self sys w).self

/-- The instance after a sequence of calls, each paired with the world it starts in (the
world may have changed in any way between two calls). -/
def runCalls {W : Type} (sys : Sys W) : NPM → List (Call × W) → NPM
  | self, [] => self
  | self, (call, w) :: rest => runCalls sys (call.run sys self w) rest

/-- The records of an instance all sit in the type-partitioned root of their own type
below `root`, and `root` is the instance's install path. -/
def TypePartitioned (root : String) (self : NPM) : Prop :=
  self.installPath = root ∧
    ∀ entry ∈ self.extensions, entry.2.installPath = pathJoin [root, entry.2.type]

/-! ## The dictionary -/

theorem Extensions.get_set_self (exts : Extensions) (name : String) (record : ExtensionRecord) :
    (exts.set name record).get name = some record := by
  induction exts with
  | nil => simp [Extensions.set, Extensions.get]
  | cons head rest ih =>
    obtain ⟨key, old⟩ := head
    by_cases h : key = name
    · simp [Extensions.set, Extensions.get, h]
    · simp [Extensions.set, Extensions.get, h, ih]

theorem Extensions.get_set_of_ne (exts : Extensions) (name other : String)
    (record : ExtensionRecord) (h : other ≠ name) :
    (exts.set name record).get other = exts.get other := by
  induction exts with
  | nil => simp [Extensions.set, Extensions.get, Ne.symm h]
  | cons head rest ih =>
    obtain ⟨key, old⟩ := head
    by_cases hk : key = name
    · subst hk
      simp [Extensions.set, Extensions.get, Ne.symm h]
    · by_cases ho : key = other
      · subst ho
        simp [Extensions.set, Extensions.get, h]
      · simp [Extensions.set, Extensions.get, hk, ho, ih]

theorem Extensions.mem_set (exts : Extensions) (name : String) (record : ExtensionRecord)
    (entry : String × ExtensionRecord) (h : entry ∈ exts.set name record) :
    entry ∈ exts ∨ entry = (name, record) := by
  induction exts with
  | nil => simpa [Extensions.set] using h
  | cons head rest ih =>
    obtain ⟨key, old⟩ := head
    by_cases hk : key = name
    · subst hk
      simp only [Extensions.set, if_true, List.mem_cons] at h
      rcases h with h | h
      · exact Or.inr h
      · exact Or.inl (List.mem_cons_of_mem _ h)
    · simp only [Extensions.set, hk, if_false, List.mem_cons] at h
      rcases h with h | h
      · exact Or.inl (h ▸ List.mem_cons_self _ _)
      · rcases ih h with h | h
        · exact Or.inl (List.mem_cons_of_mem _ h)
        · exact Or.inr h

theorem Extensions.mem_delete (exts : Extensions) (name : String)
    (entry : String × ExtensionRecord) (h : entry ∈ exts.delete name) : entry ∈ exts := by
  induction exts with
  | nil => simp [Extensions.delete] at h
  | cons head rest ih =>
    obtain ⟨key, old⟩ := head
    by_cases hk : key = name
    · simp only [Extensions.delete, hk, if_true] at h
      exact List.mem_cons_of_mem _ (ih h)
    · simp only [Extensions.delete, hk, if_false, List.mem_cons] at h
      rcases h with h | h
      · exact h ▸ List.mem_cons_self _ _
      · exact List.mem_cons_of_mem _ (ih h)

theorem Extensions.mem_of_get (exts : Extensions) (name : String) (record : ExtensionRecord)
    (h : exts.get name = some record) : (name, record) ∈ exts := by
  induction exts with
  | nil => simp [Extensions.get] at h
  | cons head rest ih =>
    obtain ⟨key, old⟩ := head
    by_cases hk : key = name
    · simp only [Extensions.get, hk, if_true, Option.some.injEq] at h
      simp [hk, h]
    · simp only [Extensions.get, hk, if_false] at h
      exact List.mem_cons_of_mem _ (ih h)

/-- The join of the ECMAScript loop is the interleaving of the separator. -/
theorem arrayJoin_eq_intercalate (xs : List String) (sep : String) :
    arrayJoin xs sep = sep.intercalate xs := by
  have hloop : ∀ (ys : List String) (acc : String),
      arrayJoinFrom sep acc ys = String.intercalate.go acc sep ys := by
    intro ys
    induction ys with
    | nil => intro acc; simp [arrayJoinFrom, String.intercalate.go]
    | cons y ys ih => intro acc; simp [arrayJoinFrom, String.intercalate.go, ih]
  cases xs with
  | nil => simp [arrayJoin, String.intercalate]
  | cons x rest => simp [arrayJoin, String.intercalate, hloop]

/-! ## Paths -/

theorem splitSlash_ne_nil (cs : List Char) : splitSlash cs ≠ [] := by
  induction cs with
  | nil => simp [splitSlash]
  | cons c cs ih =>
    unfold splitSlash
    split
    · simp
    · split <;> simp

theorem splitSlash_append (front rest : List Char) :
    splitSlash (front ++ Char.ofNat 47 :: rest) = splitSlash front ++ splitSlash rest := by
  induction front with
  | nil => simp [splitSlash]
  | cons c cs ih =>
    by_cases hc : c = Char.ofNat 47
    · simp [splitSlash, hc, ih]
    · simp only [List.cons_append, splitSlash, hc, if_false]
      change (match splitSlash (cs ++ Char.ofNat 47 :: rest) with
        | [] => [[c]]
        | seg :: segs => (c :: seg) :: segs) = _
      rw [ih]
      cases hsplit : splitSlash cs with
      | nil => exact absurd hsplit (splitSlash_ne_nil cs)
      | cons seg segs => simp

theorem splitSlash_no_slash (cs : List Char) : ∀ seg ∈ splitSlash cs, Char.ofNat 47 ∉ seg := by
  induction cs with
  | nil => simp [splitSlash]
  | cons c cs ih =>
    by_cases hc : c = Char.ofNat 47
    · simp only [splitSlash, hc, if_true, List.mem_cons]
      rintro seg (h | h)
      · simp [h]
      · exact ih seg h
    · simp only [splitSlash, hc, if_false]
      cases hsplit : splitSlash cs with
      | nil => exact absurd hsplit (splitSlash_ne_nil cs)
      | cons first segs =>
        rw [hsplit] at ih
        simp only [List.mem_cons]
        rintro seg (h | h)
        · subst h
          have := ih first (List.mem_cons_self _ _)
          simp [this, Ne.symm hc]
        · exact ih seg (List.mem_cons_of_mem _ h)

theorem splitSlash_of_no_slash (seg : List Char) (h : Char.ofNat 47 ∉ seg) :
    splitSlash seg = [seg] := by
  induction seg with
  | nil => rfl
  | cons c cs ih =>
    have hc : c ≠ Char.ofNat 47 := fun hc => h (by simp [hc])
    have hcs : Char.ofNat 47 ∉ cs := fun hcs => h (List.mem_cons_of_mem _ hcs)
    simp [splitSlash, hc, ih hcs]

theorem intercalate_cons_cons (sep first second : List Char) (rest : List (List Char)) :
    List.intercalate sep (first :: second :: rest) =
      first ++ sep ++ List.intercalate sep (second :: rest) := by
  simp [List.intercalate, List.intersperse]

theorem splitSlash_intercalate (segs : List (List Char)) (hne : segs ≠ [])
    (hseg : ∀ seg ∈ segs, Char.ofNat 47 ∉ seg) :
    splitSlash (List.intercalate [Char.ofNat 47] segs) = segs := by
  induction segs with
  | nil => exact absurd rfl hne
  | cons first rest ih =>
    cases rest with
    | nil =>
      simp only [List.intercalate, List.intersperse, List.flatten, List.append_nil]
      exact splitSlash_of_no_slash first (hseg first (List.mem_cons_self _ _))
    | cons second rest =>
      rw [intercalate_cons_cons, List.append_assoc, List.singleton_append, splitSlash_append,
        ih (by simp) (fun seg h => hseg seg (List.mem_cons_of_mem _ h)),
        splitSlash_of_no_slash first (hseg first (List.mem_cons_self _ _))]
      rfl

theorem normalizeSegments_append (allow : Bool) (xs ys : List (List Char)) :
    ∀ acc, normalizeSegments allow acc (xs ++ ys) =
      normalizeSegments allow (normalizeSegments allow acc xs).reverse ys := by
  induction xs with
  | nil => intro acc; simp [normalizeSegments]
  | cons seg segs ih =>
    intro acc
    simp only [List.cons_append, normalizeSegments]
    split
    · exact ih acc
    · split
      · cases acc with
        | nil => exact ih _
        | cons last before =>
          simp only []
          split
          · exact ih _
          · exact ih _
      · exact ih _

theorem NormalStack.tail (allow : Bool) (xs ys : List (List Char))
    (h : NormalStack allow (xs ++ ys)) : NormalStack allow ys := by
  induction xs with
  | nil => exact h
  | cons x xs ih => exact ih h.2.2.2.2

theorem NormalStack.all_dotdot (allow : Bool) (last : List Char) (before : List (List Char))
    (h : NormalStack allow (last :: before)) (hlast : last = dotdot) :
    ∀ s ∈ last :: before, s = dotdot := by
  intro s hs
  rcases List.mem_cons.1 hs with hs | hs
  · rw [hs, hlast]
  · exact (h.2.2.2.1 hlast).2 s hs

theorem normalizeSegments_stack (allow : Bool) (segs : List (List Char))
    (hseg : ∀ seg ∈ segs, Char.ofNat 47 ∉ seg) :
    ∀ acc, NormalStack allow acc → NormalStack allow (normalizeSegments allow acc segs).reverse := by
  induction segs with
  | nil => intro acc h; simpa [normalizeSegments] using h
  | cons seg segs ih =>
    have hrest : ∀ s ∈ segs, Char.ofNat 47 ∉ s := fun s hs => hseg s (List.mem_cons_of_mem _ hs)
    have hslash : Char.ofNat 47 ∉ seg := hseg seg (List.mem_cons_self _ _)
    intro acc h
    simp only [normalizeSegments]
    split
    · exact ih hrest acc h
    · rename_i hskip
      have hne : seg ≠ [] := fun hh => hskip (Or.inl hh)
      have hdot : seg ≠ [Char.ofNat 46] := fun hh => hskip (Or.inr hh)
      split
      · rename_i hdd
        cases acc with
        | nil =>
          simp only []
          cases allow with
          | false => exact ih hrest [] trivial
          | true =>
            refine ih hrest [seg] ⟨hne, hdot, hslash, fun _ => ⟨rfl, ?_⟩, trivial⟩
            intro s hs
            cases hs
        | cons last before =>
          simp only []
          split
          · rename_i hlast
            cases allow with
            | false => exact ih hrest _ h
            | true =>
              exact ih hrest _ ⟨hne, hdot, hslash,
                fun _ => ⟨rfl, NormalStack.all_dotdot true last before h hlast⟩, h⟩
          · exact ih hrest before h.2.2.2.2
      · rename_i hdd
        exact ih hrest (seg :: acc) ⟨hne, hdot, hslash, fun hh => absurd hh hdd, h⟩

theorem normalizeSegments_of_normal (allow : Bool) (segs : List (List Char)) :
    ∀ acc, NormalStack allow (segs.reverse ++ acc) →
      normalizeSegments allow acc segs = (segs.reverse ++ acc).reverse := by
  induction segs with
  | nil => intro acc _; simp [normalizeSegments]
  | cons seg segs ih =>
    intro acc h
    have h2 : NormalStack allow (segs.reverse ++ (seg :: acc)) := by
      simpa [List.reverse_cons, List.append_assoc] using h
    have hseg : NormalStack allow (seg :: acc) := NormalStack.tail allow _ _ h2
    have hgoal : (segs.reverse ++ (seg :: acc)).reverse = ((seg :: segs).reverse ++ acc).reverse := by
      simp [List.reverse_cons, List.append_assoc]
    rw [← hgoal, ← ih (seg :: acc) h2]
    simp only [normalizeSegments]
    have hskip : ¬ (seg = [] ∨ seg = [Char.ofNat 46]) := by
      rintro (hh | hh)
      · exact hseg.1 hh
      · exact hseg.2.1 hh
    rw [if_neg hskip]
    split
    · rename_i hdd
      have hallow := (hseg.2.2.2.1 hdd).1
      have hall := (hseg.2.2.2.1 hdd).2
      cases acc with
      | nil => simp [hallow]
      | cons last before =>
        have hlast : last = dotdot := hall last (List.mem_cons_self _ _)
        have hlast2 : last = [Char.ofNat 46, Char.ofNat 46] := hlast
        simp [hlast2, hallow]
    · rfl

theorem NormalStack.segment (allow : Bool) (stack : List (List Char))
    (h : NormalStack allow stack) : ∀ s ∈ stack, s ≠ [] ∧ Char.ofNat 47 ∉ s := by
  induction stack with
  | nil => intro s hs; cases hs
  | cons seg before ih =>
    intro s hs
    rcases List.mem_cons.1 hs with hs | hs
    · rw [hs]; exact ⟨h.1, h.2.2.1⟩
    · exact ih h.2.2.2.2 s hs

theorem getLast?_append_cons (xs : List Char) (y : Char) (ys : List Char) :
    (xs ++ y :: ys).getLast? = (y :: ys).getLast? := by
  induction xs with
  | nil => rfl
  | cons x xs ih =>
    cases hxs : xs ++ y :: ys with
    | nil => simp at hxs
    | cons z zs =>
      rw [List.cons_append, hxs, List.getLast?_cons_cons, ← hxs, ih]

/-- What `pathNormalize` does with a path followed by `/` and more depends only on whether
the path is absolute and on its normalised segments. -/
theorem pathNormalize_append_congr (x y : Char) (xs ys rest : List Char)
    (habs : decide (x = Char.ofNat 47) = decide (y = Char.ofNat 47))
    (hsegs : normalizeSegments (!decide (x = Char.ofNat 47)) [] (splitSlash (x :: xs)) =
      normalizeSegments (!decide (y = Char.ofNat 47)) [] (splitSlash (y :: ys))) :
    pathNormalize ((x :: xs) ++ Char.ofNat 47 :: rest) =
      pathNormalize ((y :: ys) ++ Char.ofNat 47 :: rest) := by
  have hx : normalizeSegments (!decide (x = Char.ofNat 47)) []
        (splitSlash (x :: (xs ++ Char.ofNat 47 :: rest))) =
      normalizeSegments (!decide (y = Char.ofNat 47)) []
        (splitSlash (y :: (ys ++ Char.ofNat 47 :: rest))) := by
    rw [← List.cons_append, ← List.cons_append, splitSlash_append, splitSlash_append,
      normalizeSegments_append, normalizeSegments_append, hsegs, habs]
  have hlast : (x :: (xs ++ Char.ofNat 47 :: rest)).getLast? =
      (y :: (ys ++ Char.ofNat 47 :: rest)).getLast? := by
    rw [← List.cons_append, ← List.cons_append, getLast?_append_cons, getLast?_append_cons]
  rw [habs] at hx
  simp only [List.cons_append, pathNormalize, habs, hx, hlast]

theorem intercalate_eq_nil (segs : List (List Char))
    (hseg : ∀ s ∈ segs, s ≠ []) (h : List.intercalate [Char.ofNat 47] segs = []) : segs = [] := by
  cases segs with
  | nil => rfl
  | cons first rest =>
    exfalso
    have hfirst := hseg first (List.mem_cons_self _ _)
    cases rest with
    | nil =>
      simp [List.intercalate, List.intersperse] at h
      exact hfirst h
    | cons second rest =>
      rw [intercalate_cons_cons] at h
      simp at h

theorem intercalate_head (segs : List (List Char)) (hne : segs ≠ [])
    (hseg : ∀ s ∈ segs, s ≠ [] ∧ Char.ofNat 47 ∉ s) :
    ∃ c cs, List.intercalate [Char.ofNat 47] segs = c :: cs ∧ c ≠ Char.ofNat 47 := by
  cases segs with
  | nil => exact absurd rfl hne
  | cons first rest =>
    have hfirst := hseg first (List.mem_cons_self _ _)
    cases first with
    | nil => exact absurd rfl hfirst.1
    | cons c cs =>
      have hc : c ≠ Char.ofNat 47 := fun hc => hfirst.2 (by simp [hc])
      cases rest with
      | nil => exact ⟨c, cs, by simp [List.intercalate, List.intersperse], hc⟩
      | cons second rest =>
        exact ⟨c, cs ++ [Char.ofNat 47] ++ List.intercalate [Char.ofNat 47] (second :: rest),
          by rw [intercalate_cons_cons]; simp, hc⟩

/-- The normal form of a path is a non-empty path that is absolute exactly when the path
is, and normalising it again keeps its segments. -/
theorem pathNormalize_spec (p : Char) (ps : List Char) :
    ∃ n ns, pathNormalize (p :: ps) = n :: ns ∧
      decide (n = Char.ofNat 47) = decide (p = Char.ofNat 47) ∧
      normalizeSegments (!decide (p = Char.ofNat 47)) [] (splitSlash (n :: ns)) =
        normalizeSegments (!decide (p = Char.ofNat 47)) [] (splitSlash (p :: ps)) := by
  have hnormal : NormalStack (!decide (p = Char.ofNat 47))
      (normalizeSegments (!decide (p = Char.ofNat 47)) [] (splitSlash (p :: ps))).reverse :=
    normalizeSegments_stack _ _ (splitSlash_no_slash _) [] trivial
  have hprops : ∀ s ∈ normalizeSegments (!decide (p = Char.ofNat 47)) [] (splitSlash (p :: ps)),
      s ≠ [] ∧ Char.ofNat 47 ∉ s :=
    fun s hs => NormalStack.segment _ _ hnormal s (List.mem_reverse.2 hs)
  have hagain : normalizeSegments (!decide (p = Char.ofNat 47)) []
      (normalizeSegments (!decide (p = Char.ofNat 47)) [] (splitSlash (p :: ps))) =
      normalizeSegments (!decide (p = Char.ofNat 47)) [] (splitSlash (p :: ps)) := by
    have h := normalizeSegments_of_normal (!decide (p = Char.ofNat 47))
      (normalizeSegments (!decide (p = Char.ofNat 47)) [] (splitSlash (p :: ps))) []
      (by simpa using hnormal)
    simpa using h
  simp only [pathNormalize]
  generalize hsegs : normalizeSegments (!decide (p = Char.ofNat 47)) [] (splitSlash (p :: ps)) =
    segs at hnormal hprops hagain ⊢
  by_cases hbody : List.intercalate [Char.ofNat 47] segs = []
  · have hnil : segs = [] := intercalate_eq_nil segs (fun s hs => (hprops s hs).1) hbody
    subst hnil
    rw [if_pos hbody]
    by_cases hp : p = Char.ofNat 47
    · subst hp
      exact ⟨Char.ofNat 47, [], by simp, rfl, by decide⟩
    · by_cases htrail : (p :: ps).getLast? = some (Char.ofNat 47)
      · refine ⟨Char.ofNat 46, [Char.ofNat 47], by simp [hp, htrail], by simp [hp], ?_⟩
        simp only [hp, decide_False, Bool.not_false]
        decide
      · refine ⟨Char.ofNat 46, [], by simp [hp, htrail], by simp [hp], ?_⟩
        simp only [hp, decide_False, Bool.not_false]
        decide
  · rw [if_neg hbody]
    have hne : segs ≠ [] := by
      rintro rfl
      exact hbody rfl
    obtain ⟨c, cs, hb, hc⟩ := intercalate_head segs hne hprops
    have hsplit : splitSlash (List.intercalate [Char.ofNat 47] segs) = segs :=
      splitSlash_intercalate segs hne (fun s hs => (hprops s hs).2)
    have hplain : normalizeSegments (!decide (p = Char.ofNat 47)) []
        (splitSlash (List.intercalate [Char.ofNat 47] segs)) = segs := by
      rw [hsplit, hagain]
    have hslash : normalizeSegments (!decide (p = Char.ofNat 47)) []
        (splitSlash (List.intercalate [Char.ofNat 47] segs ++ [Char.ofNat 47])) = segs := by
      rw [splitSlash_append, hsplit, normalizeSegments_append, hagain]
      simp [splitSlash, normalizeSegments]
    have htail : ∀ tail : List Char, tail = [] ∨ tail = [Char.ofNat 47] →
        normalizeSegments (!decide (p = Char.ofNat 47)) []
          (splitSlash (List.intercalate [Char.ofNat 47] segs ++ tail)) = segs := by
      rintro tail (rfl | rfl)
      · rw [List.append_nil]; exact hplain
      · exact hslash
    have hlead : ∀ body : List Char,
        normalizeSegments (!decide (p = Char.ofNat 47)) [] (splitSlash (Char.ofNat 47 :: body)) =
          normalizeSegments (!decide (p = Char.ofNat 47)) [] (splitSlash body) := by
      intro body
      simp [splitSlash, normalizeSegments]
    by_cases hp : p = Char.ofNat 47
    · subst hp
      by_cases htrail : (Char.ofNat 47 :: ps).getLast? = some (Char.ofNat 47)
      · refine ⟨Char.ofNat 47, List.intercalate [Char.ofNat 47] segs ++ [Char.ofNat 47],
          by simp [htrail], rfl, ?_⟩
        rw [hlead]
        exact htail _ (Or.inr rfl)
      · refine ⟨Char.ofNat 47, List.intercalate [Char.ofNat 47] segs,
          by simp [htrail], rfl, ?_⟩
        rw [hlead]
        exact hplain
    · by_cases htrail : (p :: ps).getLast? = some (Char.ofNat 47)
      · refine ⟨c, cs ++ [Char.ofNat 47], by simp [hp, htrail, hb], by simp [hp, hc], ?_⟩
        rw [← List.cons_append, ← hb]
        exact hslash
      · refine ⟨c, cs, by simp [hp, htrail, hb], by simp [hp, hc], ?_⟩
        rw [← hb]
        exact hplain

/-- Joining onto a normalised path is joining onto the path. -/
theorem pathNormalize_join (front rest : List Char) (hfront : front ≠ []) :
    pathNormalize (pathNormalize front ++ Char.ofNat 47 :: rest) =
      pathNormalize (front ++ Char.ofNat 47 :: rest) := by
  cases front with
  | nil => exact absurd rfl hfront
  | cons p ps =>
    obtain ⟨n, ns, hN, habs, hsegs⟩ := pathNormalize_spec p ps
    rw [hN]
    refine pathNormalize_append_congr n p ns ps rest habs ?_
    rw [habs]
    exact hsegs

theorem pathNormalize_ne_nil (path : List Char) : pathNormalize path ≠ [] := by
  cases path with
  | nil => simp [pathNormalize]
  | cons p ps =>
    obtain ⟨n, ns, hN, _, _⟩ := pathNormalize_spec p ps
    rw [hN]
    simp

theorem pathJoin_ne_empty (parts : List String) : pathJoin parts ≠ "" := by
  intro h
  have hdata := congrArg String.data h
  exact pathNormalize_ne_nil _ hdata

theorem string_data_ne_nil (s : String) (h : s ≠ "") : s.data ≠ [] := by
  intro hd
  apply h
  cases s
  simp_all

theorem intercalate_append (sep : List Char) (xs ys : List (List Char))
    (hxs : xs ≠ []) (hys : ys ≠ []) :
    List.intercalate sep (xs ++ ys) =
      List.intercalate sep xs ++ sep ++ List.intercalate sep ys := by
  induction xs with
  | nil => exact absurd rfl hxs
  | cons x rest ih =>
    cases rest with
    | nil =>
      cases ys with
      | nil => exact absurd rfl hys
      | cons y ys =>
        rw [List.singleton_append, intercalate_cons_cons]
        simp [List.intercalate, List.intersperse]
    | cons second rest =>
      rw [List.cons_append, List.cons_append, intercalate_cons_cons, ← List.cons_append,
        ih (by simp), intercalate_cons_cons]
      simp [List.append_assoc]

theorem intercalate_ne_nil (sep : List Char) (xs : List (List Char)) (hxs : xs ≠ [])
    (hx : ∀ x ∈ xs, x ≠ []) : List.intercalate sep xs ≠ [] := by
  cases xs with
  | nil => exact absurd rfl hxs
  | cons x rest =>
    have hfirst := hx x (List.mem_cons_self _ _)
    cases rest with
    | nil => simpa [List.intercalate, List.intersperse] using hfirst
    | cons second rest =>
      rw [intercalate_cons_cons]
      simp [hfirst]

/-- The call `path.join(path.join(...front), ...rest)` gives `path.join(...front, ...rest)`
when both lists have a non-empty part. -/
theorem pathJoin_pathJoin (front rest : List String)
    (hfront : front.filter (fun p => p != "") ≠ [])
    (hrest : rest.filter (fun p => p != "") ≠ []) :
    pathJoin (pathJoin front :: rest) = pathJoin (front ++ rest) := by
  have hroot : (pathJoin front != "") = true := by
    simpa using pathJoin_ne_empty front
  have hdata : ∀ x ∈ (front.filter fun p => p != "").map String.data, x ≠ [] := by
    intro x hx
    obtain ⟨p, hp, rfl⟩ := List.mem_map.1 hx
    have hne : p ≠ "" := by simpa using (List.mem_filter.1 hp).2
    exact string_data_ne_nil p hne
  have hfs : (front.filter fun p => p != "").map String.data ≠ [] := by
    simpa using hfront
  have hgs : (rest.filter fun p => p != "").map String.data ≠ [] := by
    simpa using hrest
  have hjoin := pathNormalize_join
    (List.intercalate [Char.ofNat 47] ((front.filter fun p => p != "").map String.data))
    (List.intercalate [Char.ofNat 47] ((rest.filter fun p => p != "").map String.data))
    (intercalate_ne_nil _ _ hfs hdata)
  have hleft : pathJoin (pathJoin front :: rest) =
      String.mk (pathNormalize (List.intercalate [Char.ofNat 47]
        ((pathJoin front).data :: (rest.filter fun p => p != "").map String.data))) := by
    rw [pathJoin, List.filter_cons, if_pos hroot, List.map_cons]
  have hright : pathJoin (front ++ rest) =
      String.mk (pathNormalize (List.intercalate [Char.ofNat 47]
        ((front.filter fun p => p != "").map String.data ++
          (rest.filter fun p => p != "").map String.data))) := by
    rw [pathJoin, List.filter_append, List.map_append]
  have hfrontdata : (pathJoin front).data = pathNormalize (List.intercalate [Char.ofNat 47]
      ((front.filter fun p => p != "").map String.data)) := rfl
  rw [hleft, hright, intercalate_append _ _ _ hfs hgs, hfrontdata]
  cases hg : (rest.filter fun p => p != "").map String.data with
  | nil => exact absurd hg hgs
  | cons g gs =>
    rw [hg] at hjoin
    rw [intercalate_cons_cons, List.append_assoc, List.singleton_append, List.append_assoc,
      List.singleton_append, hjoin]

/-- The directory of a package below an install root that was itself joined from the base
and a type is the directory joined from all four parts. -/
theorem pathJoin_nested (base type name : String) (htype : type ≠ "") :
    pathJoin [pathJoin [base, type], "node_modules", name] =
      pathJoin [base, type, "node_modules", name] := by
  have htype2 : (type != "") = true := by simpa using htype
  have hfront : [base, type].filter (fun p => p != "") ≠ [] := by
    intro h
    have hmem : type ∈ [base, type].filter (fun p => p != "") :=
      List.mem_filter.2 ⟨by simp, htype2⟩
    rw [h] at hmem
    cases hmem
  have hrest : ["node_modules", name].filter (fun p => p != "") ≠ [] := by
    intro h
    have hmem : "node_modules" ∈ ["node_modules", name].filter (fun p => p != "") :=
      List.mem_filter.2 ⟨by simp, by decide⟩
    rw [h] at hmem
    cases hmem
  exact pathJoin_pathJoin [base, type] ["node_modules", name] hfront hrest

/-! ## Registry client -/

/-- C10: `searchExtensions(text, {keywords})` asks the registry at exactly
`searchURL + "?text=" + text`, followed at once by `"+keywords:"` and the keywords joined by
`"+"` when the keyword list is non-empty and by nothing when it is absent or empty: the
outcome of the call is decided by the answer at that URL alone. With text `foo` and keywords
`bar`, `baz`, a registry that answers only the query string `text=foo+keywords:bar+baz` is
reached. -/
theorem searchExtensions_request_url :
    (∀ (W : Type) (self : NPM) (sys : Sys W) (w : W) (text : String)
        (keywords : Option (List String)),
      NPM.searchExtensions self sys w text ⟨keywords⟩ =
        match sys.fetch w (self.searchURL ++ "?text=" ++ text ++
            (match keywords with
             | none => ""
             | some [] => ""
             | some (k :: ks) => "+keywords:" ++ "+".intercalate (k :: ks))) with
        | none => .throw (.X COMMON.TIMEOUT)
        | some response =>
          match response.json with
          | some (.object searchResults) => .ok searchResults.objects
          | _ => .throw (.X COMMON.TIMEOUT)) ∧
    NPM.searchExtensions demo (diskSys true emptyDisk) searchDisk "foo" ⟨some ["bar", "baz"]⟩ =
      .ok (some ["foo-bar-baz"]) := by
  refine ⟨?_, by decide⟩
  intro W self sys w text keywords
  unfold NPM.searchExtensions
  rcases keywords with _ | _ | ⟨k, ks⟩
  · simp only []
    cases sys.fetch w (self.searchURL ++ "?text=" ++ text ++ "") with
    | none => rfl
    | some response =>
      obtain ⟨status, json⟩ := response
      rcases json with _ | _ | o <;> rfl
  · simp only []
    cases sys.fetch w (self.searchURL ++ "?text=" ++ text ++ "") with
    | none => rfl
    | some response =>
      obtain ⟨status, json⟩ := response
      rcases json with _ | _ | o <;> rfl
  · simp only [arrayJoin_eq_intercalate]
    cases sys.fetch w (self.searchURL ++ "?text=" ++ text ++
        ("+keywords:" ++ "+".intercalate (k :: ks))) with
    | none => rfl
    | some response =>
      obtain ⟨status, json⟩ := response
      rcases json with _ | _ | o <;> rfl

/-- C9: `searchExtensionByName` returns `null`, and does not fail, when the fetch resolves
with a status other than `OK`; it fails with `TIMEOUT` when the fetch itself rejects; a
non-success status is never reported as `TIMEOUT`. -/
theorem searchExtensionByName_status_and_transport {W : Type} (self : NPM) (sys : Sys W) (w : W)
    (extensionName version : String) :
    (∀ response : Response,
      sys.fetch w (self.searchByPackageNameURL ++ NPM.prepareExtensionName extensionName ++
        "/" ++ version) = some response →
      response.status ≠ sys.statusOK →
      NPM.searchExtensionByName self sys w extensionName version = .ok .null ∧
        NPM.searchExtensionByName self sys w extensionName version ≠
          .throw (.X COMMON.TIMEOUT)) ∧
    (sys.fetch w (self.searchByPackageNameURL ++ NPM.prepareExtensionName extensionName ++
        "/" ++ version) = none →
      NPM.searchExtensionByName self sys w extensionName version =
        .throw (.X COMMON.TIMEOUT)) := by
  constructor
  · intro response hfetch hstatus
    have hnull : NPM.searchExtensionByName self sys w extensionName version = .ok .null := by
      simp [NPM.searchExtensionByName, hfetch, hstatus]
    exact ⟨hnull, by rw [hnull]; exact fun h => Res.noConfusion h⟩
  · intro hfetch
    simp [NPM.searchExtensionByName, hfetch]

/-- The witness of C9: a `404` answer for `ghost` gives `null`, and a registry that cannot be
reached gives `TIMEOUT`. -/
theorem searchExtensionByName_status_and_transport_witness :
    NPM.searchExtensionByName demo (diskSys true emptyDisk) ghostDisk "ghost" "latest" =
        .ok .null ∧
      NPM.searchExtensionByName demo (diskSys true emptyDisk) emptyDisk "ghost" "latest" =
        .throw (.X COMMON.TIMEOUT) :=
  ⟨((searchExtensionByName_status_and_transport demo (diskSys true emptyDisk) ghostDisk
      "ghost" "latest").1 ⟨404, none⟩ (by decide) (by decide)).1,
    (searchExtensionByName_status_and_transport demo (diskSys true emptyDisk) emptyDisk
      "ghost" "latest").2 (by decide)⟩

/-! ## Type detection -/

/-- A name without a cached type skips the cache branch of the type detection. -/
theorem filter_type_eq_none (exts : Extensions) (name : String)
    (hcache : ∀ record, exts.get name = some record → record.type = "") :
    (exts.get name).filter (fun record => truthy record.type) = none := by
  cases hget : exts.get name with
  | none => rfl
  | some record => simp [Option.filter, truthy, hcache record hget]

/-- The first keyword that is a configured type is what `find` returns. -/
theorem find_first_member (types before after : List String) (t : String)
    (hbefore : ∀ k ∈ before, k ∉ types) (ht : t ∈ types) :
    (before ++ t :: after).find? (fun keyword => types.contains keyword) = some t := by
  induction before with
  | nil => simp [List.find?, ht]
  | cons b before ih =>
    have hb : b ∉ types := hbefore b (List.mem_cons_self _ _)
    have hrest : ∀ k ∈ before, k ∉ types := fun k hk => hbefore k (List.mem_cons_of_mem _ hk)
    have hstep : (b :: before ++ t :: after).find? (fun keyword => types.contains keyword) =
        (before ++ t :: after).find? (fun keyword => types.contains keyword) := by
      rw [List.cons_append, List.find?_cons_of_neg]
      simpa using hb
    rw [hstep, ih hrest]

/-- C1, against the claim as stated: with the empty string as configured type and as the
only keyword of the descriptor, a keyword of the descriptor is a configured type, yet the call
fails with `WRONG_TYPE` instead of returning it. -/
theorem getExtensionType_empty_keyword_fails :
    emptyTag.extensions.get "pkg" = none ∧
      NPM.searchExtensionByName emptyTag (diskSys true emptyDisk) emptyTagDisk "pkg" =
        .ok (.object ⟨some [""], none, none⟩) ∧
      "" ∈ emptyTag.extensionTypes ∧
      NPM.getExtensionTypeByExtensionName emptyTag (diskSys true emptyDisk) emptyTagDisk "pkg" =
        .throw (.X EXTENSIONS.WRONG_TYPE) := by
  decide

/-- C1, amended: for a name with no cached type and a descriptor returned by the lookup, if
some keyword is a configured type, the call returns the first such keyword in the
descriptor's order when that keyword is not the empty string, and fails with `WRONG_TYPE`
when it is; with no keywords, an empty keyword list or no keyword among the configured types
the call fails with `WRONG_TYPE`. -/
theorem getExtensionType_first_matching_keyword {W : Type} (self : NPM) (sys : Sys W) (w : W)
    (extensionName : String) (extension : JsonObject)
    (hcache : ∀ record, self.extensions.get extensionName = some record → record.type = "")
    (hlookup : NPM.searchExtensionByName self sys w extensionName = .ok (.object extension)) :
    (∀ (before after : List String) (t : String),
      extension.keywords = some (before ++ t :: after) →
      (∀ k ∈ before, k ∉ self.extensionTypes) → t ∈ self.extensionTypes →
      NPM.getExtensionTypeByExtensionName self sys w extensionName =
        if t = "" then .throw (.X EXTENSIONS.WRONG_TYPE) else .ok t) ∧
    (extension.keywords = none ∨ extension.keywords = some [] ∨
        (∃ keywords, extension.keywords = some keywords ∧
          ∀ k ∈ keywords, k ∉ self.extensionTypes) →
      NPM.getExtensionTypeByExtensionName self sys w extensionName =
        .throw (.X EXTENSIONS.WRONG_TYPE)) := by
  have hfilter := filter_type_eq_none self.extensions extensionName hcache
  constructor
  · intro before after t hkeywords hbefore ht
    have hfind := find_first_member self.extensionTypes before after t hbefore ht
    unfold NPM.getExtensionTypeByExtensionName
    rw [hfilter, hlookup]
    simp only [hkeywords]
    cases hsplit : before ++ t :: after with
    | nil => simp at hsplit
    | cons k ks =>
      rw [hsplit] at hfind
      simp only [hfind, truthy]
      by_cases hempty : t = "" <;> simp [hempty]
  · intro hnone
    unfold NPM.getExtensionTypeByExtensionName
    rw [hfilter, hlookup]
    rcases hnone with h | h | ⟨keywords, h, hno⟩
    · simp only [h]
    · simp only [h]
    · simp only [h]
      cases keywords with
      | nil => rfl
      | cons k ks =>
        have hfind : (k :: ks).find? (fun keyword => self.extensionTypes.contains keyword) =
            none := by
          rw [List.find?_eq_none]
          intro x hx
          simpa using hno x hx
        simp only [hfind]

/-- The witness of C1: keywords `utility`, `driver` against the types `driver`, `widget`
give `driver`. -/
theorem getExtensionType_first_matching_keyword_witness :
    NPM.getExtensionTypeByExtensionName demo (diskSys true emptyDisk)
      ⟨[], [], [("https://registry.npmjs.org/pkg/latest",
        ⟨200, some (.object ⟨some ["utility", "driver"], none, none⟩)⟩)]⟩ "pkg" = .ok "driver" :=
  (getExtensionType_first_matching_keyword demo (diskSys true emptyDisk)
    ⟨[], [], [("https://registry.npmjs.org/pkg/latest",
      ⟨200, some (.object ⟨some ["utility", "driver"], none, none⟩)⟩)]⟩ "pkg"
    ⟨some ["utility", "driver"], none, none⟩ (by decide) (by decide)).1
    ["utility"] [] "driver" (by decide) (by decide) (by decide)

/-- C3, against the claim as stated: when the lookup of a name without cached type returns
`null`, the call fails with `WRONG_TYPE`, not with `NOT_FOUND`. -/
theorem null_lookup_is_WRONG_TYPE_not_NOT_FOUND :
    demo.extensions.get "ghost" = none ∧
      NPM.searchExtensionByName demo (diskSys true emptyDisk) ghostDisk "ghost" = .ok .null ∧
      NPM.getExtensionTypeByExtensionName demo (diskSys true emptyDisk) ghostDisk "ghost" =
        .throw (.X EXTENSIONS.WRONG_TYPE) ∧
      NPM.getExtensionTypeByExtensionName demo (diskSys true emptyDisk) ghostDisk "ghost" ≠
        .throw (.X COMMON.NOT_FOUND) := by
  decide

/-- C3, amended: for a name with no cached type, if the registry lookup returns `null`, the
call fails with `WRONG_TYPE`, the same kind as for a descriptor without a matching
keyword. -/
theorem getExtensionType_null_lookup {W : Type} (self : NPM) (sys : Sys W) (w : W)
    (extensionName : String)
    (hcache : ∀ record, self.extensions.get extensionName = some record → record.type = "")
    (hlookup : NPM.searchExtensionByName self sys w extensionName = .ok .null) :
    NPM.getExtensionTypeByExtensionName self sys w extensionName =
      .throw (.X EXTENSIONS.WRONG_TYPE) := by
  unfold NPM.getExtensionTypeByExtensionName
  rw [filter_type_eq_none self.extensions extensionName hcache, hlookup]

/-- The witness of C3: `ghost`, unknown to the registry, is a `WRONG_TYPE`. -/
theorem getExtensionType_null_lookup_witness :
    NPM.getExtensionTypeByExtensionName demo (diskSys true emptyDisk) ghostDisk "ghost" =
      .throw (.X EXTENSIONS.WRONG_TYPE) :=
  getExtensionType_null_lookup demo (diskSys true emptyDisk) ghostDisk "ghost"
    (by decide) (by decide)

/-! ## Update check -/

/-- C2, the code at the failing input: the manifest of `pkg` is readable and its registry
entry has no `version`; the `try` block throws `UNSUPPORTED_PACKAGE`, but the `catch` clause
around it turns that into `CHECK_UPDATES_ERROR`, so `UNSUPPORTED_PACKAGE` does not pass
through. -/
theorem hasAvailableUpdate_remaps_UNSUPPORTED_PACKAGE :
    NPM.getExtensionConfigObj demo (diskSys true emptyDisk) unversionedDisk "pkg" "driver" =
        .ok utilManifest ∧
      NPM.searchExtensionByName demo (diskSys true emptyDisk) unversionedDisk "pkg" =
        .ok (.object ⟨some ["util"], none, none⟩) ∧
      NPM.hasAvailableUpdateTry demo (diskSys true emptyDisk) unversionedDisk "pkg" "driver" =
        .throw (.X EXTENSIONS.UNSUPPORTED_PACKAGE) ∧
      NPM.hasAvailableUpdate demo (diskSys true emptyDisk) unversionedDisk "pkg" "driver" =
        .throw (.X EXTENSIONS.CHECK_UPDATES_ERROR) := by
  decide

/-! ## Install, update, uninstall -/

/-- With a non-empty type the extension directory is found without asking the registry. -/
theorem getExtensionPath_of_type {W : Type} (self : NPM) (sys : Sys W) (w : W)
    (extensionName type : String) (htype : type ≠ "") :
    ∃ dir, NPM.getExtensionPath self sys w extensionName type = .ok dir := by
  unfold NPM.getExtensionPath
  cases (self.extensions.get extensionName).filter (fun record => truthy record.installPath) with
  | some record => exact ⟨_, rfl⟩
  | none => exact ⟨pathJoin [self.installPath, type, "node_modules", extensionName], by
      simp [truthy, htype]⟩

/-- The install path is resolved exactly when the check of the extension directory says
that it exists; a directory that does not exist is a `NOT_FOUND`, and an error thrown by the
check itself is passed on. -/
theorem getExtensionInstallPath_cases {W : Type} (self : NPM) (sys : Sys W) (w : W)
    (extensionName type dir : String)
    (hdir : NPM.getExtensionPath self sys w extensionName type = .ok dir) :
    (pathExists sys w dir = .ok true ∧
        ∃ path, NPM.getExtensionInstallPath self sys w extensionName type = .ok path) ∨
      (pathExists sys w dir = .ok false ∧
        NPM.getExtensionInstallPath self sys w extensionName type =
          .throw (.X COMMON.NOT_FOUND)) ∨
      (∃ e, pathExists sys w dir = .throw e ∧
        NPM.getExtensionInstallPath self sys w extensionName type = .throw e) := by
  unfold NPM.getExtensionInstallPath NPM.isExtensionInstalled
  rw [hdir]
  simp only []
  cases hexists : pathExists sys w dir with
  | throw e => exact Or.inr (Or.inr ⟨e, rfl, rfl⟩)
  | ok found =>
    cases found with
    | false => exact Or.inr (Or.inl ⟨rfl, rfl⟩)
    | true =>
      refine Or.inl ⟨rfl, ?_⟩
      simp only []
      cases (self.extensions.get extensionName).filter
          (fun extension => truthy extension.installPath) with
      | some extension => exact ⟨_, rfl⟩
      | none => exact ⟨_, rfl⟩

/-- A failing `installExtension` leaves the cache alone and fails with `INSTALL_ERROR`; a
failing process, and a manifest that cannot be read after the process, make it fail. -/
theorem installExtension_failure {W : Type} (self : NPM) (sys : Sys W) (w : W)
    (extensionName extensionType : String) :
    (∀ err, (NPM.installExtension self sys w extensionName extensionType).result = .throw err →
      (NPM.installExtension self sys w extensionName extensionType).self.extensions =
          self.extensions ∧
        err = .X EXTENSIONS.INSTALL_ERROR) ∧
    ((sys.exec w ("npm i --no-package-lock " ++ extensionName)
        { cwd := pathJoin [self.installPath, extensionType],
          timeout := self.cliCommandTimeout }).1 = false →
      (NPM.installExtension self sys w extensionName extensionType).result =
        .throw (.X EXTENSIONS.INSTALL_ERROR)) ∧
    (∀ e, (sys.exec w ("npm i --no-package-lock " ++ extensionName)
        { cwd := pathJoin [self.installPath, extensionType],
          timeout := self.cliCommandTimeout }).1 = true →
      NPM.getExtensionConfigObj self sys
        (sys.exec w ("npm i --no-package-lock " ++ extensionName)
          { cwd := pathJoin [self.installPath, extensionType],
            timeout := self.cliCommandTimeout }).2 extensionName extensionType = .throw e →
      (NPM.installExtension self sys w extensionName extensionType).result =
        .throw (.X EXTENSIONS.INSTALL_ERROR)) := by
  simp only [NPM.installExtension]
  rcases hexec : sys.exec w ("npm i --no-package-lock " ++ extensionName)
      { cwd := pathJoin [self.installPath, extensionType],
        timeout := self.cliCommandTimeout } with ⟨ok, w1⟩
  cases ok with
  | false =>
    simp only []
    refine ⟨?_, ?_, ?_⟩
    · intro err h; injection h with h; subst h; simp
    · intro _; trivial
    · intro e h; cases h
  | true =>
    simp only []
    cases hconfig : NPM.getExtensionConfigObj self sys w1 extensionName extensionType with
    | throw e =>
      simp only []
      refine ⟨?_, ?_, ?_⟩
      · intro err h; injection h with h; subst h; simp
      · intro h; cases h
      · intro _ _ _; trivial
    | ok config =>
      simp only []
      refine ⟨?_, ?_, ?_⟩
      · intro err h; exact Res.noConfusion h
      · intro h; cases h
      · intro e _ h; cases h

/-- A failing `updateExtension` leaves the cache alone; when the check of the extension
directory `dir` completes, the error is `NOT_FOUND` for a directory that does not exist and
`UPDATE_ERROR` otherwise. A directory that does not exist, a failing process, and a manifest
that cannot be read after the process, make it fail. -/
theorem updateExtension_failure {W : Type} (self : NPM) (sys : Sys W) (w : W)
    (extensionName extensionType dir : String)
    (hdir : NPM.getExtensionPath self sys w extensionName extensionType = .ok dir) :
    (∀ err, (NPM.updateExtension self sys w extensionName extensionType).result = .throw err →
      (NPM.updateExtension self sys w extensionName extensionType).self.extensions =
          self.extensions ∧
        ∀ found, pathExists sys w dir = .ok found →
          err = if found then .X EXTENSIONS.UPDATE_ERROR else .X COMMON.NOT_FOUND) ∧
    (pathExists sys w dir = .ok false →
      (NPM.updateExtension self sys w extensionName extensionType).result =
        .throw (.X COMMON.NOT_FOUND)) ∧
    (∀ path, NPM.getExtensionInstallPath self sys w extensionName extensionType = .ok path →
      ((sys.exec w ("npm i --no-package-lock " ++ extensionName ++ "@latest")
          { cwd := path, timeout := self.cliCommandTimeout }).1 = false →
        (NPM.updateExtension self sys w extensionName extensionType).result =
          .throw (.X EXTENSIONS.UPDATE_ERROR)) ∧
      (∀ e, (sys.exec w ("npm i --no-package-lock " ++ extensionName ++ "@latest")
          { cwd := path, timeout := self.cliCommandTimeout }).1 = true →
        NPM.getExtensionConfigObj self sys
          (sys.exec w ("npm i --no-package-lock " ++ extensionName ++ "@latest")
            { cwd := path, timeout := self.cliCommandTimeout }).2
          extensionName extensionType = .throw e →
        (NPM.updateExtension self sys w extensionName extensionType).result =
          .throw (.X EXTENSIONS.UPDATE_ERROR))) := by
  unfold NPM.updateExtension
  rcases getExtensionInstallPath_cases self sys w extensionName extensionType dir hdir with
    ⟨hexists, path, hpath⟩ | ⟨hexists, hpath⟩ | ⟨e, hexists, hpath⟩
  · rw [hpath]
    simp only []
    rcases hexec : sys.exec w ("npm i --no-package-lock " ++ extensionName ++ "@latest")
        { cwd := path, timeout := self.cliCommandTimeout } with ⟨ok, w1⟩
    have hfound : ∀ found, pathExists sys w dir = .ok found →
        Err.X EXTENSIONS.UPDATE_ERROR =
          if found then .X EXTENSIONS.UPDATE_ERROR else .X COMMON.NOT_FOUND := by
      intro found hf
      rw [hexists] at hf
      injection hf with hf
      subst hf
      rfl
    refine ⟨?_, ?_, ?_⟩
    rotate_left
    · intro h; rw [hexists] at h; cases h
    rotate_left
    · cases ok with
      | false =>
        simp only []
        intro err h; injection h with h; subst h
        exact ⟨by simp, hfound⟩
      | true =>
        simp only []
        cases NPM.getExtensionConfigObj self sys w1 extensionName extensionType with
        | throw e =>
          simp only []
          intro err h; injection h with h; subst h
          exact ⟨by simp, hfound⟩
        | ok config =>
          simp only []
          cases self.extensions.get extensionName with
          | none =>
            simp only []
            intro err h; injection h with h; subst h
            exact ⟨by simp, hfound⟩
          | some record =>
            simp only []
            intro err h; exact Res.noConfusion h
    · intro path2 hpath2
      injection hpath2 with hpath2
      subst hpath2
      rw [hexec]
      cases ok with
      | false =>
        refine ⟨?_, ?_⟩
        · intro _; rfl
        · intro e h; cases h
      | true =>
        refine ⟨?_, ?_⟩
        · intro h; cases h
        · intro e _ hconfig
          simp only [] at hconfig ⊢
          rw [hconfig]
  · rw [hpath]
    simp only []
    refine ⟨?_, ?_, ?_⟩
    · intro err h; injection h with h; subst h
      refine ⟨by simp, ?_⟩
      intro found hf
      rw [hexists] at hf
      injection hf with hf
      subst hf
      rfl
    · intro _; trivial
    · intro path h; cases h
  · rw [hpath]
    simp only []
    refine ⟨?_, ?_, ?_⟩
    · intro err h
      refine ⟨by simp, ?_⟩
      intro found hf
      rw [hexists] at hf
      cases hf
    · intro h; rw [hexists] at h; cases h
    · intro path h; cases h

/-- A failing `uninstallExtension` leaves the cache alone; when the check of the extension
directory `dir` completes, the error is `NOT_FOUND` for a directory that does not exist and
`UNINSTALL_ERROR` otherwise. A directory that does not exist and a failing process make it
fail. -/
theorem uninstallExtension_failure {W : Type} (self : NPM) (sys : Sys W) (w : W)
    (extensionName extensionType dir : String)
    (hdir : NPM.getExtensionPath self sys w extensionName extensionType = .ok dir) :
    (∀ err, (NPM.uninstallExtension self sys w extensionName extensionType).result = .throw err →
      (NPM.uninstallExtension self sys w extensionName extensionType).self.extensions =
          self.extensions ∧
        ∀ found, pathExists sys w dir = .ok found →
          err = if found then .X EXTENSIONS.UNINSTALL_ERROR else .X COMMON.NOT_FOUND) ∧
    (pathExists sys w dir = .ok false →
      (NPM.uninstallExtension self sys w extensionName extensionType).result =
        .throw (.X COMMON.NOT_FOUND)) ∧
    (∀ path, NPM.getExtensionInstallPath self sys w extensionName extensionType = .ok path →
      (sys.exec w ("npm uninstall --no-package-lock " ++ extensionName)
          { cwd := path, timeout := self.cliCommandTimeout }).1 = false →
        (NPM.uninstallExtension self sys w extensionName extensionType).result =
          .throw (.X EXTENSIONS.UNINSTALL_ERROR)) := by
  unfold NPM.uninstallExtension
  rcases getExtensionInstallPath_cases self sys w extensionName extensionType dir hdir with
    ⟨hexists, path, hpath⟩ | ⟨hexists, hpath⟩ | ⟨e, hexists, hpath⟩
  · rw [hpath]
    simp only []
    rcases hexec : sys.exec w ("npm uninstall --no-package-lock " ++ extensionName)
        { cwd := path, timeout := self.cliCommandTimeout } with ⟨ok, w1⟩
    have hfound : ∀ found, pathExists sys w dir = .ok found →
        Err.X EXTENSIONS.UNINSTALL_ERROR =
          if found then .X EXTENSIONS.UNINSTALL_ERROR else .X COMMON.NOT_FOUND := by
      intro found hf
      rw [hexists] at hf
      injection hf with hf
      subst hf
      rfl
    refine ⟨?_, ?_, ?_⟩
    rotate_left
    · intro h; rw [hexists] at h; cases h
    rotate_left
    · cases ok with
      | false =>
        simp only []
        intro err h; injection h with h; subst h
        exact ⟨by simp, hfound⟩
      | true =>
        simp only []
        intro err h; exact Res.noConfusion h
    · intro path2 hpath2
      injection hpath2 with hpath2
      subst hpath2
      rw [hexec]
      cases ok with
      | false => intro _; rfl
      | true => intro h; cases h
  · rw [hpath]
    simp only []
    refine ⟨?_, ?_, ?_⟩
    · intro err h; injection h with h; subst h
      refine ⟨by simp, ?_⟩
      intro found hf
      rw [hexists] at hf
      injection hf with hf
      subst hf
      rfl
    · intro _; trivial
    · intro path h; cases h
  · rw [hpath]
    simp only []
    refine ⟨?_, ?_, ?_⟩
    · intro err h
      refine ⟨by simp, ?_⟩
      intro found hf
      rw [hexists] at hf
      cases hf
    · intro h; rw [hexists] at h; cases h
    · intro path h; cases h

/-- C4, against the claim as stated: for a name with a NUL byte the check of the extension
directory itself throws; `updateExtension` and `uninstallExtension` resolve the install path
before their `try` block, so the call fails with that error and with neither `NOT_FOUND` nor
`UPDATE_ERROR`, respectively `UNINSTALL_ERROR`. -/
theorem update_uninstall_pass_on_stat_error :
    NPM.getExtensionPath demo (diskSys true bothDisk) bothDisk nulName "driver" =
        .ok (pathJoin ["/ext", "driver", "node_modules", nulName]) ∧
      pathExists (diskSys true bothDisk) bothDisk
          (pathJoin ["/ext", "driver", "node_modules", nulName]) =
        .throw (.other "fs.stat") ∧
      (NPM.updateExtension demo (diskSys true bothDisk) bothDisk nulName "driver").result =
        .throw (.other "fs.stat") ∧
      (NPM.uninstallExtension demo (diskSys true bothDisk) bothDisk nulName "driver").result =
        .throw (.other "fs.stat") := by
  decide

/-- C4, amended: for every cache, name and non-empty type, a failing `installExtension`,
`updateExtension` or `uninstallExtension` leaves `this.extensions` as it was. Install fails
with `INSTALL_ERROR`. With a non-empty type the extension directory is always resolved, and
whenever the check of that directory completes, update and uninstall fail with `NOT_FOUND`
when the directory does not exist and with `UPDATE_ERROR`, respectively `UNINSTALL_ERROR`,
otherwise. The failures are real: a directory that does not exist, a failing or timed-out
process, and a manifest that cannot be read after a successful process (install, update)
each make the call fail with the kind just named. -/
theorem failure_leaves_extensions_unchanged {W : Type} (self : NPM) (sys : Sys W) (w : W)
    (extensionName extensionType : String) (htype : extensionType ≠ "") :
    ((∀ err, (NPM.installExtension self sys w extensionName extensionType).result = .throw err →
        (NPM.installExtension self sys w extensionName extensionType).self.extensions =
            self.extensions ∧
          err = .X EXTENSIONS.INSTALL_ERROR) ∧
      ((sys.exec w ("npm i --no-package-lock " ++ extensionName)
          { cwd := pathJoin [self.installPath, extensionType],
            timeout := self.cliCommandTimeout }).1 = false →
        (NPM.installExtension self sys w extensionName extensionType).result =
          .throw (.X EXTENSIONS.INSTALL_ERROR)) ∧
      (∀ e, (sys.exec w ("npm i --no-package-lock " ++ extensionName)
          { cwd := pathJoin [self.installPath, extensionType],
            timeout := self.cliCommandTimeout }).1 = true →
        NPM.getExtensionConfigObj self sys
          (sys.exec w ("npm i --no-package-lock " ++ extensionName)
            { cwd := pathJoin [self.installPath, extensionType],
              timeout := self.cliCommandTimeout }).2 extensionName extensionType = .throw e →
        (NPM.installExtension self sys w extensionName extensionType).result =
          .throw (.X EXTENSIONS.INSTALL_ERROR))) ∧
    (∃ dir, NPM.getExtensionPath self sys w extensionName extensionType = .ok dir) ∧
    (∀ dir, NPM.getExtensionPath self sys w extensionName extensionType = .ok dir →
      ((∀ err,
          (NPM.updateExtension self sys w extensionName extensionType).result = .throw err →
          (NPM.updateExtension self sys w extensionName extensionType).self.extensions =
              self.extensions ∧
            ∀ found, pathExists sys w dir = .ok found →
              err = if found then .X EXTENSIONS.UPDATE_ERROR else .X COMMON.NOT_FOUND) ∧
        (pathExists sys w dir = .ok false →
          (NPM.updateExtension self sys w extensionName extensionType).result =
            .throw (.X COMMON.NOT_FOUND)) ∧
        (∀ path,
          NPM.getExtensionInstallPath self sys w extensionName extensionType = .ok path →
          ((sys.exec w ("npm i --no-package-lock " ++ extensionName ++ "@latest")
              { cwd := path, timeout := self.cliCommandTimeout }).1 = false →
            (NPM.updateExtension self sys w extensionName extensionType).result =
              .throw (.X EXTENSIONS.UPDATE_ERROR)) ∧
          (∀ e, (sys.exec w ("npm i --no-package-lock " ++ extensionName ++ "@latest")
              { cwd := path, timeout := self.cliCommandTimeout }).1 = true →
            NPM.getExtensionConfigObj self sys
              (sys.exec w ("npm i --no-package-lock " ++ extensionName ++ "@latest")
                { cwd := path, timeout := self.cliCommandTimeout }).2
              extensionName extensionType = .throw e →
            (NPM.updateExtension self sys w extensionName extensionType).result =
              .throw (.X EXTENSIONS.UPDATE_ERROR)))) ∧
      ((∀ err,
          (NPM.uninstallExtension self sys w extensionName extensionType).result = .throw err →
          (NPM.uninstallExtension self sys w extensionName extensionType).self.extensions =
              self.extensions ∧
            ∀ found, pathExists sys w dir = .ok found →
              err = if found then .X EXTENSIONS.UNINSTALL_ERROR else .X COMMON.NOT_FOUND) ∧
        (pathExists sys w dir = .ok false →
          (NPM.uninstallExtension self sys w extensionName extensionType).result =
            .throw (.X COMMON.NOT_FOUND)) ∧
        (∀ path,
          NPM.getExtensionInstallPath self sys w extensionName extensionType = .ok path →
          (sys.exec w ("npm uninstall --no-package-lock " ++ extensionName)
              { cwd := path, timeout := self.cliCommandTimeout }).1 = false →
          (NPM.uninstallExtension self sys w extensionName extensionType).result =
            .throw (.X EXTENSIONS.UNINSTALL_ERROR)))) :=
  ⟨installExtension_failure self sys w extensionName extensionType,
    getExtensionPath_of_type self sys w extensionName extensionType htype,
    fun dir hdir =>
      ⟨updateExtension_failure self sys w extensionName extensionType dir hdir,
        uninstallExtension_failure self sys w extensionName extensionType dir hdir⟩⟩

/-- The witness of C4, with a record for `pkg` in the cache: an install whose process fails
is an `INSTALL_ERROR` and leaves the cache alone; an update of a package that is not on disk
is a `NOT_FOUND`; an update whose process succeeds but leaves no readable manifest is an
`UPDATE_ERROR`; an uninstall whose process fails is an `UNINSTALL_ERROR`. -/
theorem failure_leaves_extensions_unchanged_witness :
    ((NPM.installExtension cachedDemo (diskSys false bothDisk) bothDisk "pkg" "driver").result =
        .throw (.X EXTENSIONS.INSTALL_ERROR)) ∧
      ((NPM.installExtension cachedDemo (diskSys false bothDisk) bothDisk "pkg"
          "driver").self.extensions = cachedDemo.extensions ∧
        Err.X "INSTALL_ERROR" = .X EXTENSIONS.INSTALL_ERROR) ∧
      ((NPM.updateExtension cachedDemo (diskSys true bothDisk) readyDisk "pkg" "driver").result =
        .throw (.X COMMON.NOT_FOUND)) ∧
      ((NPM.updateExtension cachedDemo (diskSys true readyDisk) bothDisk "pkg" "driver").result =
        .throw (.X EXTENSIONS.UPDATE_ERROR)) ∧
      ((NPM.uninstallExtension cachedDemo (diskSys false bothDisk) bothDisk "pkg"
        "driver").result = .throw (.X EXTENSIONS.UNINSTALL_ERROR)) :=
  ⟨(failure_leaves_extensions_unchanged cachedDemo (diskSys false bothDisk) bothDisk "pkg"
      "driver" (by decide)).1.2.1 (by decide),
    (failure_leaves_extensions_unchanged cachedDemo (diskSys false bothDisk) bothDisk "pkg"
      "driver" (by decide)).1.1 (.X "INSTALL_ERROR") (by decide),
    ((failure_leaves_extensions_unchanged cachedDemo (diskSys true bothDisk) readyDisk "pkg"
      "driver" (by decide)).2.2 "/ext/driver/node_modules/pkg" (by decide)).1.2.1 (by decide),
    (((failure_leaves_extensions_unchanged cachedDemo (diskSys true readyDisk) bothDisk "pkg"
      "driver" (by decide)).2.2 "/ext/driver/node_modules/pkg" (by decide)).1.2.2
        "/ext/driver" (by decide)).2 (.X "NOT_FOUND") (by decide) (by decide),
    ((failure_leaves_extensions_unchanged cachedDemo (diskSys false bothDisk) bothDisk "pkg"
      "driver" (by decide)).2.2 "/ext/driver/node_modules/pkg" (by decide)).2.2.2
        "/ext/driver" (by decide) (by decide)⟩

/-- C5, against the claim as stated. First, installing `pkg` as a `driver` succeeds although
its manifest is tagged `util` only: the manifest in the new record, which is also what
`getExtensionConfigObj` returns afterwards, has no keyword `driver`. Second, with the empty
string as type the manifest is read from the directory of the type the registry gives
(`driver`) while the record points at `/ext`, so what `getExtensionConfigObj` returns
afterwards is not the manifest in the record. -/
theorem installExtension_ignores_keywords :
    ((NPM.installExtension demo (diskSys true unversionedDisk) readyDisk "pkg" "driver").result =
        .ok () ∧
      (NPM.installExtension demo (diskSys true unversionedDisk) readyDisk "pkg"
          "driver").self.extensions = [("pkg", ⟨"/ext/driver", "driver", utilManifest⟩)] ∧
      NPM.getExtensionConfigObj
          (NPM.installExtension demo (diskSys true unversionedDisk) readyDisk "pkg" "driver").self
          (diskSys true unversionedDisk)
          (NPM.installExtension demo (diskSys true unversionedDisk) readyDisk "pkg" "driver").world
          "pkg" = .ok utilManifest ∧
      NPM.keywordsIncludes utilManifest "driver" = some false) ∧
    ((NPM.installExtension demo (diskSys true twiceDisk) bothDisk "pkg" "").result = .ok () ∧
      (NPM.installExtension demo (diskSys true twiceDisk) bothDisk "pkg" "").self.extensions =
        [("pkg", ⟨"/ext", "", bothManifest⟩)] ∧
      NPM.getExtensionConfigObj
          (NPM.installExtension demo (diskSys true twiceDisk) bothDisk "pkg" "").self
          (diskSys true twiceDisk)
          (NPM.installExtension demo (diskSys true twiceDisk) bothDisk "pkg" "").world
          "pkg" = .ok utilManifest ∧
      utilManifest ≠ bothManifest) := by
  decide

/-- The extension directory after an install: the record just written has a non-empty
install path, which decides the directory whatever type is passed. -/
theorem getExtensionPath_after_set {W : Type} (self : NPM) (sys : Sys W) (w : W)
    (extensionName anyType : String) (record : ExtensionRecord)
    (hpath : record.installPath ≠ "") :
    NPM.getExtensionPath
        { self with extensions := self.extensions.set extensionName record } sys w
        extensionName anyType =
      .ok (pathJoin [record.installPath, "node_modules", extensionName]) := by
  unfold NPM.getExtensionPath
  simp only [Extensions.get_set_self]
  have htruthy : truthy record.installPath = true := by simpa [truthy] using hpath
  simp [Option.filter, htruthy]

/-- The extension directory during an install of a non-empty type, for a name whose record,
if any, already sits in the install root of that type. -/
theorem getExtensionPath_before_set {W : Type} (self : NPM) (sys : Sys W) (w : W)
    (extensionName extensionType : String) (htype : extensionType ≠ "")
    (hprior : ∀ record, self.extensions.get extensionName = some record →
      record.installPath = pathJoin [self.installPath, extensionType]) :
    NPM.getExtensionPath self sys w extensionName extensionType =
      .ok (pathJoin [pathJoin [self.installPath, extensionType], "node_modules",
        extensionName]) := by
  have htruthy : truthy extensionType = true := by simpa [truthy] using htype
  have hroot : truthy (pathJoin [self.installPath, extensionType]) = true := by
    simpa [truthy] using pathJoin_ne_empty [self.installPath, extensionType]
  unfold NPM.getExtensionPath
  cases hget : self.extensions.get extensionName with
  | none =>
    simp [Option.filter, htruthy, pathJoin_nested self.installPath extensionType extensionName htype]
  | some record =>
    have hrecord := hprior record hget
    simp [Option.filter, hrecord, hroot]

/-- C5, amended: for every name and non-empty type, if the name has no record before the
call, or a record whose install path is already `path.join(installPath, type)`, then after
`installExtension(name, type)` completes successfully the manifest that
`getExtensionConfigObj` returns for the name (whatever type is passed along) is the manifest
stored in the new cache record, which carries the type and the install root of the install;
nothing is said about the keywords of that manifest. -/
theorem installExtension_then_getExtensionConfigObj {W : Type} (self : NPM) (sys : Sys W) (w : W)
    (extensionName extensionType : String) (htype : extensionType ≠ "")
    (hprior : ∀ record, self.extensions.get extensionName = some record →
      record.installPath = pathJoin [self.installPath, extensionType])
    (hok : (NPM.installExtension self sys w extensionName extensionType).result = .ok ()) :
    ∃ config,
      (∀ anyType, NPM.getExtensionConfigObj
          (NPM.installExtension self sys w extensionName extensionType).self sys
          (NPM.installExtension self sys w extensionName extensionType).world
          extensionName anyType = .ok config) ∧
        (NPM.installExtension self sys w extensionName extensionType).self.extensions.get
            extensionName =
          some { installPath := pathJoin [self.installPath, extensionType],
                 type := extensionType, config := config } := by
  simp only [NPM.installExtension] at hok ⊢
  rcases hexec : sys.exec w ("npm i --no-package-lock " ++ extensionName)
      { cwd := pathJoin [self.installPath, extensionType],
        timeout := self.cliCommandTimeout } with ⟨ok, w1⟩
  rw [hexec] at hok
  cases ok with
  | false => exact Res.noConfusion hok
  | true =>
    simp only [] at hok ⊢
    cases hconfig : NPM.getExtensionConfigObj self sys w1 extensionName extensionType with
    | throw e =>
      rw [hconfig] at hok
      exact Res.noConfusion hok
    | ok config =>
      refine ⟨config, ?_, Extensions.get_set_self _ _ _⟩
      intro anyType
      have hafter := getExtensionPath_after_set self sys w1 extensionName anyType
        { installPath := pathJoin [self.installPath, extensionType], type := extensionType,
          config := config }
        (pathJoin_ne_empty [self.installPath, extensionType])
      have hbefore := getExtensionPath_before_set self sys w1 extensionName extensionType
        htype hprior
      unfold NPM.getExtensionConfigObj at hconfig ⊢
      rw [hbefore] at hconfig
      rw [hafter]
      exact hconfig

/-- The witness of C5: after the install of `pkg` as a `driver` on a fresh instance, the
manifest read back is the one in the record. -/
theorem installExtension_then_getExtensionConfigObj_witness :
    ∃ config,
      (∀ anyType, NPM.getExtensionConfigObj
          (NPM.installExtension demo (diskSys true unversionedDisk) readyDisk "pkg"
            "driver").self (diskSys true unversionedDisk)
          (NPM.installExtension demo (diskSys true unversionedDisk) readyDisk "pkg"
            "driver").world "pkg" anyType = .ok config) ∧
        (NPM.installExtension demo (diskSys true unversionedDisk) readyDisk "pkg"
            "driver").self.extensions.get "pkg" =
          some { installPath := pathJoin [demo.installPath, "driver"],
                 type := "driver", config := config } :=
  installExtension_then_getExtensionConfigObj demo (diskSys true unversionedDisk) readyDisk
    "pkg" "driver" (by decide) (by decide) (by decide)

/-- For a name that has a record, a resolved install path, a successful process and a
readable manifest make `updateExtension` succeed: the record gets the manifest just read and
keeps its install path and type, and no other name is touched. -/
theorem updateExtension_with_record {W : Type} (self : NPM) (sys : Sys W) (w w1 : W)
    (extensionName extensionType path : String) (config : Json) (record : ExtensionRecord)
    (hpath : NPM.getExtensionInstallPath self sys w extensionName extensionType = .ok path)
    (hexec : sys.exec w ("npm i --no-package-lock " ++ extensionName ++ "@latest")
      { cwd := path, timeout := self.cliCommandTimeout } = (true, w1))
    (hconfig : NPM.getExtensionConfigObj self sys w1 extensionName extensionType = .ok config)
    (hrecord : self.extensions.get extensionName = some record) :
    (NPM.updateExtension self sys w extensionName extensionType).result = .ok () ∧
      (NPM.updateExtension self sys w extensionName extensionType).self.extensions.get
          extensionName = some { record with config := config } ∧
      ∀ other, other ≠ extensionName →
        (NPM.updateExtension self sys w extensionName extensionType).self.extensions.get other =
          self.extensions.get other := by
  unfold NPM.updateExtension
  rw [hpath]
  simp only [hexec, hconfig, hrecord]
  exact ⟨trivial, Extensions.get_set_self _ _ _,
    fun other hother => Extensions.get_set_of_ne _ _ _ _ hother⟩

/-- C6, the code at the failing input: `pkg` is on disk under `driver` and has no cache
record; its install path resolves, the update process succeeds and the manifest is readable,
yet `updateExtension` fails with `UPDATE_ERROR` and leaves the name without a record. -/
theorem updateExtension_fails_without_record :
    demo.extensions.get "pkg" = none ∧
      NPM.getExtensionInstallPath demo (diskSys true bothDisk) bothDisk "pkg" "driver" =
        .ok "/ext/driver" ∧
      (diskSys true bothDisk).exec bothDisk "npm i --no-package-lock pkg@latest"
        ⟨"/ext/driver", 120000⟩ = (true, bothDisk) ∧
      NPM.getExtensionConfigObj demo (diskSys true bothDisk) bothDisk "pkg" "driver" =
        .ok bothManifest ∧
      (NPM.updateExtension demo (diskSys true bothDisk) bothDisk "pkg" "driver").result =
        .throw (.X EXTENSIONS.UPDATE_ERROR) ∧
      (NPM.updateExtension demo (diskSys true bothDisk) bothDisk "pkg"
        "driver").self.extensions.get "pkg" = none := by
  decide

/-! ## Scan of the installed extensions -/

/-- C8, the code at the failing input: `pkg`, tagged `driver` and `widget`, is found under
`/ext/driver/node_modules` only, `/ext/widget/node_modules` being empty; the scan checks it
again in the round of `widget`, returns its manifest twice and leaves it recorded under
`widget`. -/
theorem getInstalledExtensions_rechecks_earlier_names :
    demo.extensionTypes = ["driver", "widget"] ∧
      (diskSys true bothDisk).opendir bothDisk "/ext/driver/node_modules" =
        some [⟨"pkg", true⟩] ∧
      (diskSys true bothDisk).opendir bothDisk "/ext/widget/node_modules" = some [] ∧
      (NPM.getInstalledExtensions demo (diskSys true bothDisk) bothDisk).result =
        .ok [bothManifest, bothManifest] ∧
      (NPM.getInstalledExtensions demo (diskSys true bothDisk) bothDisk).self.extensions =
        [("pkg", ⟨"/ext/widget", "widget", bothManifest⟩)] := by
  decide

/-! ## The install path of every record -/

theorem TypePartitioned.set_record (root : String) (self : NPM) (name : String)
    (record : ExtensionRecord) (h : TypePartitioned root self)
    (hrecord : record.installPath = pathJoin [root, record.type]) :
    TypePartitioned root { self with extensions := self.extensions.set name record } := by
  refine ⟨h.1, ?_⟩
  intro entry hentry
  rcases Extensions.mem_set self.extensions name record entry hentry with hold | hnew
  · exact h.2 entry hold
  · rw [hnew]
    exact hrecord

theorem TypePartitioned.delete_record (root : String) (self : NPM) (name : String)
    (h : TypePartitioned root self) :
    TypePartitioned root { self with extensions := self.extensions.delete name } :=
  ⟨h.1, fun entry hentry => h.2 entry (Extensions.mem_delete self.extensions name entry hentry)⟩

theorem installExtension_partitioned {W : Type} (root : String) (self : NPM) (sys : Sys W)
    (w : W) (name type : String) (h : TypePartitioned root self) :
    TypePartitioned root (NPM.installExtension self sys w name type).self := by
  simp only [NPM.installExtension]
  rcases sys.exec w ("npm i --no-package-lock " ++ name)
      { cwd := pathJoin [self.installPath, type],
        timeout := self.cliCommandTimeout } with ⟨ok, w1⟩
  cases ok with
  | false => exact h
  | true =>
    simp only []
    cases NPM.getExtensionConfigObj self sys w1 name type with
    | throw e => exact h
    | ok config =>
      exact TypePartitioned.set_record root self name _ h (by rw [h.1])

theorem updateExtension_partitioned {W : Type} (root : String) (self : NPM) (sys : Sys W)
    (w : W) (name type : String) (h : TypePartitioned root self) :
    TypePartitioned root (NPM.updateExtension self sys w name type).self := by
  unfold NPM.updateExtension
  cases NPM.getExtensionInstallPath self sys w name type with
  | throw e => exact h
  | ok path =>
    simp only []
    rcases sys.exec w ("npm i --no-package-lock " ++ name ++ "@latest")
        { cwd := path, timeout := self.cliCommandTimeout } with ⟨ok, w1⟩
    cases ok with
    | false => exact h
    | true =>
      simp only []
      cases NPM.getExtensionConfigObj self sys w1 name type with
      | throw e => exact h
      | ok config =>
        simp only []
        cases hget : self.extensions.get name with
        | none => exact h
        | some record =>
          exact TypePartitioned.set_record root self name _ h
            (h.2 (name, record) (Extensions.mem_of_get self.extensions name record hget))

theorem uninstallExtension_partitioned {W : Type} (root : String) (self : NPM) (sys : Sys W)
    (w : W) (name type : String) (h : TypePartitioned root self) :
    TypePartitioned root (NPM.uninstallExtension self sys w name type).self := by
  unfold NPM.uninstallExtension
  cases NPM.getExtensionInstallPath self sys w name type with
  | throw e => exact h
  | ok path =>
    simp only []
    rcases sys.exec w ("npm uninstall --no-package-lock " ++ name)
        { cwd := path, timeout := self.cliCommandTimeout } with ⟨ok, w1⟩
    cases ok with
    | false => exact h
    | true => exact TypePartitioned.delete_record root self name h

theorem classifyPackages_partitioned {W : Type} (root : String) (sys : Sys W) (w : W)
    (type : String) (packageNames : List String) :
    ∀ (self : NPM) (packageConfigObjs : List Json), TypePartitioned root self →
      TypePartitioned root
        (NPM.classifyPackages sys w type packageNames self packageConfigObjs).1 := by
  induction packageNames with
  | nil => intro self objs h; exact h
  | cons packageName rest ih =>
    intro self objs h
    unfold NPM.classifyPackages
    cases NPM.getExtensionConfigObj self sys w packageName with
    | throw e => exact ih self objs h
    | ok packageConfigObj =>
      simp only []
      rcases NPM.keywordsIncludes packageConfigObj type with _ | _ | _
      · exact ih self objs h
      · exact ih self objs h
      · exact ih _ _ (TypePartitioned.set_record root self packageName _ h (by rw [h.1]))

theorem scanTypes_partitioned {W : Type} (root : String) (sys : Sys W) (w : W)
    (types : List String) :
    ∀ (self : NPM) (packageNames : List String) (packageConfigObjs : List Json),
      TypePartitioned root self →
      TypePartitioned root (NPM.scanTypes sys w types self packageNames packageConfigObjs).1 := by
  induction types with
  | nil => intro self names objs h; exact h
  | cons type types ih =>
    intro self names objs h
    simp only [NPM.scanTypes]
    cases pathExists sys w (pathJoin [self.installPath, type, "node_modules"]) with
    | throw e => exact h
    | ok found =>
      cases found with
      | false => exact ih self names objs h
      | true =>
        simp only []
        cases sys.opendir w (pathJoin [self.installPath, type, "node_modules"]) with
        | none => exact h
        | some dir =>
          simp only []
          cases NPM.collectPackageNames sys w
              (pathJoin [self.installPath, type, "node_modules"]) dir names with
          | throw e => exact h
          | ok packageNames =>
            simp only []
            exact ih _ _ _
              (classifyPackages_partitioned root sys w type packageNames self objs h)

theorem runCalls_partitioned {W : Type} (root : String) (sys : Sys W)
    (calls : List (Call × W)) :
    ∀ self : NPM, TypePartitioned root self → TypePartitioned root (runCalls sys self calls) := by
  induction calls with
  | nil => intro self h; exact h
  | cons head rest ih =>
    intro self h
    obtain ⟨call, w⟩ := head
    refine ih _ ?_
    cases call with
    | installExtension name type => exact installExtension_partitioned root self sys w name type h
    | updateExtension name type => exact updateExtension_partitioned root self sys w name type h
    | uninstallExtension name type =>
      exact uninstallExtension_partitioned root self sys w name type h
    | getInstalledExtensions =>
      exact scanTypes_partitioned root sys w self.extensionTypes self [] [] h

/-- C7: starting from the empty cache, after any sequence of `installExtension`,
`updateExtension`, `uninstallExtension` and `getInstalledExtensions` calls, successful or
failing, every record of `this.extensions` has
`installPath = path.join(this.installPath, record.type)`. -/
theorem installPath_is_type_root {W : Type} (sys : Sys W) (self : NPM)
    (calls : List (Call × W)) (hempty : self.extensions = []) :
    (runCalls sys self calls).installPath = self.installPath ∧
      ∀ entry ∈ (runCalls sys self calls).extensions,
        entry.2.installPath = pathJoin [(runCalls sys self calls).installPath, entry.2.type] := by
  have hstart : TypePartitioned self.installPath self :=
    ⟨rfl, by rw [hempty]; intro entry hentry; cases hentry⟩
  have hend := runCalls_partitioned self.installPath sys calls self hstart
  refine ⟨hend.1, ?_⟩
  rw [hend.1]
  exact hend.2

/-- The witness of C7: install `pkg` as a `driver`, update it, scan (which records it again
under `widget`), then fail to uninstall `ghost`; the one record left sits in the root of its
own type. -/
theorem installPath_is_type_root_witness :
    (runCalls (diskSys true bothDisk) demo
        [(.installExtension "pkg" "driver", readyDisk), (.updateExtension "pkg" "driver", bothDisk),
          (.getInstalledExtensions, bothDisk),
          (.uninstallExtension "ghost" "driver", bothDisk)]).extensions =
        [("pkg", ⟨"/ext/widget", "widget", bothManifest⟩)] ∧
      (⟨"/ext/widget", "widget", bothManifest⟩ : ExtensionRecord).installPath =
        pathJoin [(runCalls (diskSys true bothDisk) demo
          [(.installExtension "pkg" "driver", readyDisk),
            (.updateExtension "pkg" "driver", bothDisk), (.getInstalledExtensions, bothDisk),
            (.uninstallExtension "ghost" "driver", bothDisk)]).installPath, "widget"] :=
  ⟨by decide,
    (installPath_is_type_root (diskSys true bothDisk) demo
      [(.installExtension "pkg" "driver", readyDisk), (.updateExtension "pkg" "driver", bothDisk),
        (.getInstalledExtensions, bothDisk), (.uninstallExtension "ghost" "driver", bothDisk)]
      (by decide)).2 ("pkg", ⟨"/ext/widget", "widget", bothManifest⟩) (by decide)⟩
